import Mathlib

/-!
Verification of the memory-translation and JIT block-cache subsystem of the
dolphin emulator, as a shallow embedding in Lean.

Machine integers (`u32`) are modelled as `Nat` values below `2^32`; every
operation that can overflow in 32-bit arithmetic takes an explicit `% 2^32`.
Physical memory is modelled as a function from (4-byte aligned) byte
addresses to the raw 32-bit word stored there (big-endian on the wire, so
the code byteswaps on every access, as the source does).  Native-code
pointers (`u8*` entry points, patch sites) are opaque to the cache logic and
are not modelled; the logical `linkStatus` / `invalid` flags that the source
maintains alongside the patches are.
-/

set_option maxRecDepth 4000

namespace Dolphin

/-- Byte reversal of a 32-bit word (`Common::swap32`), written arithmetically:
the four bytes of the value, least significant first, become the four bytes
of the result, most significant first. -/
def bswap32 (v : Nat) : Nat :=
  (v % 256) * 2 ^ 24 + (v / 2 ^ 8 % 256) * 2 ^ 16 + (v / 2 ^ 16 % 256) * 2 ^ 8 + v / 2 ^ 24 % 256

theorem bswap32_lt (v : Nat) : bswap32 v < 2 ^ 32 := by
  unfold bswap32
  have h0 : v % 256 < 256 := Nat.mod_lt _ (by norm_num)
  have h1 : v / 2 ^ 8 % 256 < 256 := Nat.mod_lt _ (by norm_num)
  have h2 : v / 2 ^ 16 % 256 < 256 := Nat.mod_lt _ (by norm_num)
  have h3 : v / 2 ^ 24 % 256 < 256 := Nat.mod_lt _ (by norm_num)
  omega

theorem bswap32_bytes {b0 b1 b2 b3 : Nat} (h0 : b0 < 256) (h1 : b1 < 256) (h2 : b2 < 256)
    (h3 : b3 < 256) :
    bswap32 (b0 + 256 * b1 + 65536 * b2 + 16777216 * b3) =
      b3 + 256 * b2 + 65536 * b1 + 16777216 * b0 := by
  unfold bswap32
  omega

theorem bswap32_bswap32 (v : Nat) (h : v < 2 ^ 32) : bswap32 (bswap32 v) = v := by
  obtain ⟨b0, b1, b2, b3, h0, h1, h2, h3, hv⟩ :
      ∃ b0 b1 b2 b3, b0 < 256 ∧ b1 < 256 ∧ b2 < 256 ∧ b3 < 256 ∧
        v = b0 + 256 * b1 + 65536 * b2 + 16777216 * b3 :=
    ⟨v % 256, v / 2 ^ 8 % 256, v / 2 ^ 16 % 256, v / 2 ^ 24,
      Nat.mod_lt _ (by norm_num), Nat.mod_lt _ (by norm_num), Nat.mod_lt _ (by norm_num),
      by omega, by omega⟩
  subst hv
  rw [bswap32_bytes h0 h1 h2 h3, bswap32_bytes h3 h2 h1 h0]

/-- Ored-in low bits below a divisibility boundary add rather than overlap. -/
theorem lor_eq_add {a b : Nat} (k : Nat) (ha : 2 ^ k ∣ a) (hb : b < 2 ^ k) :
    a ||| b = a + b := by
  induction k generalizing a b with
  | zero =>
    have hb0 : b = 0 := by omega
    subst hb0
    simp
  | succ k ih =>
    have hbk : b < 2 ^ k * 2 := by rw [pow_succ] at hb; exact hb
    have ha2 : a % 2 = 0 := by
      have : (2 : Nat) ∣ a := dvd_trans (dvd_pow_self 2 (Nat.succ_ne_zero k)) ha
      omega
    have hmod : (a ||| b) % 2 = b % 2 := by
      rcases Nat.mod_two_eq_zero_or_one b with hb0 | hb1
      · have : ¬ ((a ||| b) % 2 = 1) := by
          rw [Nat.or_mod_two_eq_one]
          omega
        omega
      · have : (a ||| b) % 2 = 1 := by
          rw [Nat.or_mod_two_eq_one]
          omega
        omega
    have hdiv : (a ||| b) / 2 = a / 2 + b / 2 := by
      rw [Nat.or_div_two]
      refine ih ?_ (by omega)
      rcases ha with ⟨m, hm⟩
      refine ⟨m, ?_⟩
      have hm2 : a = 2 ^ k * m * 2 := by rw [hm, pow_succ]; ring
      rw [hm2, Nat.mul_div_cancel _ (by norm_num)]
    have := Nat.div_add_mod (a ||| b) 2
    omega

/-- Setting bit 0 of an even value. -/
theorem lor_one_of_even {x : Nat} (hx : x % 2 = 0) : x ||| 1 = x + 1 :=
  lor_eq_add 1 (by omega) (by omega)

/-- Masking with `~1` (on 32 bits, `0xFFFFFFFE`) after setting bit 0 of an
even value recovers the value. -/
theorem and_mask_fffffffe {x : Nat} (hx : x % 2 = 0) (hlt : x < 2 ^ 32) :
    (x + 1) &&& 0xFFFFFFFE = x := by
  have hodd : (x + 1) % 2 = 1 := by omega
  have hm : (0xFFFFFFFE : Nat) % 2 = 0 := by norm_num
  have hand0 : ((x + 1) &&& 0xFFFFFFFE) % 2 = 0 := by
    have : ¬ (((x + 1) &&& 0xFFFFFFFE) % 2 = 1) := by
      rw [Nat.and_mod_two_eq_one]
      omega
    omega
  have h2 : (x + 1) / 2 = x / 2 := by omega
  have hdiv : ((x + 1) &&& 0xFFFFFFFE) / 2 = x / 2 &&& 0x7FFFFFFF := by
    rw [Nat.and_div_two, h2]
  have h3 : x / 2 &&& 0x7FFFFFFF = x / 2 % 2 ^ 31 := by
    have : (0x7FFFFFFF : Nat) = 2 ^ 31 - 1 := by norm_num
    rw [this, Nat.and_pow_two_sub_one_eq_mod]
  have h4 : x / 2 % 2 ^ 31 = x / 2 := Nat.mod_eq_of_lt (by omega)
  have := Nat.div_add_mod ((x + 1) &&& 0xFFFFFFFE) 2
  omega

/-- Interpretation of a 32-bit value as a signed `int` (two's complement), as
happens when the source stores `u32` values and reads them back as `int`. -/
def u32ToInt (v : Nat) : Int :=
  if v < 2 ^ 31 then (v : Int) else (v : Int) - 2 ^ 32

/-! ## MMU state

The architectural state read and written by the translation code
(`part_000`).  The TLB layout (`PowerPC::tlb_entry`: two tags, two physical
addresses, two raw PTE2 words and an MRU marker per set, 64 sets per stream,
4 KiB pages, invalid tag `0xFFFFFFFF`) and the exception bit `EXCEPTION_DSI`
come from the `PowerPC.h` header, which is not part of this corpus; the
values used here follow the spec's description of the TLB (direct-mapped,
2-way, separate instruction/data streams) and the hardware page size 4096
used throughout the source. -/

def HW_PAGE_SIZE : Nat := 4096
def HW_PAGE_INDEX_SHIFT : Nat := 12
def HW_PAGE_INDEX_MASK : Nat := 63
def TLB_TAG_INVALID : Nat := 0xFFFFFFFF
def EXCEPTION_DSI : Nat := 0x00000008
def PPC_EXC_DSISR_PAGE : Nat := 1 <<< 30
def PPC_EXC_DSISR_STORE : Nat := 1 <<< 25
def PTE1_V : Nat := 1 <<< 31
def PTE1_H : Nat := 1 <<< 6
def PTE2_R : Nat := 1 <<< 8
def PTE2_C : Nat := 1 <<< 7

/-- Access kind tag of the hardware access router (`XCheckTLBFlag`). -/
inductive XCheckTLBFlag
  | noException
  | read
  | write
  | opcode
  | noTranslate
deriving DecidableEq, Repr

/-- One 2-way TLB set (`PowerPC::tlb_entry`): per way a tag (virtual page
number), a cached physical page base, and the raw PTE2 word; `recent` is the
most-recently-used way. -/
structure TlbEntry where
  tag0 : Nat
  tag1 : Nat
  paddr0 : Nat
  paddr1 : Nat
  pte0 : Nat
  pte1 : Nat
  recent : Nat
deriving DecidableEq, Repr

/-- The machine state touched by the translation pipeline: MSR data-relocate
bit, segment registers, page-table base/hash-mask (from `SDR1`), the two
flat BAT tables, the two TLB streams, raw physical memory words, and the
exception-reporting registers.  `bMMU` is the startup option checked by
`GenerateDSIException`; `panic` records a `PanicAlert`. -/
structure MachState where
  msrDR : Bool
  bMMU : Bool
  sr : Nat → Nat
  pagetable_base : Nat
  pagetable_hashmask : Nat
  dbat : Nat → Nat
  ibat : Nat → Nat
  tlbData : Nat → TlbEntry
  tlbInst : Nat → TlbEntry
  mem : Nat → Nat
  dsisr : Nat
  dar : Nat
  exceptions : Nat
  panic : Bool

def isOpcodeFlag (flag : XCheckTLBFlag) : Bool := flag = XCheckTLBFlag.opcode

def getTlb (st : MachState) (op : Bool) (i : Nat) : TlbEntry :=
  if op then st.tlbInst i else st.tlbData i

def setTlb (st : MachState) (op : Bool) (i : Nat) (e : TlbEntry) : MachState :=
  if op then { st with tlbInst := fun j => if j = i then e else st.tlbInst j }
  else { st with tlbData := fun j => if j = i then e else st.tlbData j }

/-- Logical PTE2 change bit (bit 7 of the non-byteswapped word). -/
def pteC (v : Nat) : Nat := v / 2 ^ 7 % 2

/-- Logical PTE2 real page number (bits 12..31 of the non-byteswapped word). -/
def pteRPN (v : Nat) : Nat := (v >>> 12) &&& 0xFFFFF

inductive TLBLookupResult
  | found
  | notFound
  | updateC
deriving DecidableEq, Repr

structure TLBLookupOut where
  res : TLBLookupResult
  paddr : Nat
  st : MachState

/-- `LookupTLBPageAddress`: probe both ways of the indexed set; on a write
hit whose cached change bit is clear, set it in the cached word and report
`updateC` (forcing the caller to re-walk so the backing entry is updated);
otherwise a hit refreshes the MRU marker (except for no-side-effect probes)
and yields the cached physical address. -/
def lookupTLBPageAddress (flag : XCheckTLBFlag) (st : MachState) (vpa : Nat) : TLBLookupOut :=
  let tag := vpa >>> HW_PAGE_INDEX_SHIFT
  let idx := tag &&& HW_PAGE_INDEX_MASK
  let op := isOpcodeFlag flag
  let e := getTlb st op idx
  if e.tag0 = tag then
    if flag = XCheckTLBFlag.write ∧ pteC e.pte0 = 0 then
      ⟨.updateC, 0, setTlb st op idx { e with pte0 := e.pte0 ||| PTE2_C }⟩
    else
      let st1 := if flag ≠ XCheckTLBFlag.noException then setTlb st op idx { e with recent := 0 } else st
      ⟨.found, e.paddr0 ||| (vpa &&& 0xFFF), st1⟩
  else if e.tag1 = tag then
    if flag = XCheckTLBFlag.write ∧ pteC e.pte1 = 0 then
      ⟨.updateC, 0, setTlb st op idx { e with pte1 := e.pte1 ||| PTE2_C }⟩
    else
      let st1 := if flag ≠ XCheckTLBFlag.noException then setTlb st op idx { e with recent := 1 } else st
      ⟨.found, e.paddr1 ||| (vpa &&& 0xFFF), st1⟩
  else ⟨.notFound, 0, st⟩

/-- `UpdateTLBEntry`: insert the freshly walked PTE2 into the set, choosing
way 1 when way 0 is both occupied and most recently used, else way 0. -/
def updateTLBEntry (flag : XCheckTLBFlag) (pte2 : Nat) (address : Nat) (st : MachState) :
    MachState :=
  if flag = XCheckTLBFlag.noException then st
  else
    let tag := address >>> HW_PAGE_INDEX_SHIFT
    let idx := tag &&& HW_PAGE_INDEX_MASK
    let op := isOpcodeFlag flag
    let e := getTlb st op idx
    if e.recent = 0 ∧ e.tag0 ≠ TLB_TAG_INVALID then
      setTlb st op idx
        { e with recent := 1, paddr1 := pteRPN pte2 <<< HW_PAGE_INDEX_SHIFT,
                 pte1 := pte2, tag1 := tag }
    else
      setTlb st op idx
        { e with recent := 0, paddr0 := pteRPN pte2 <<< HW_PAGE_INDEX_SHIFT,
                 pte0 := pte2, tag0 := tag }

/-- Raw (byteswapped, as stored in memory) PTE1 compare value for an
effective address: valid bit, VSID from the segment register, abbreviated
page index. -/
def pte1Raw (st : MachState) (address : Nat) : Nat :=
  let sr := st.sr ((address >>> 28) &&& 0xF)
  let VSID := sr &&& 0xFFFFFF
  let api := (address >>> 22) &&& 0x3F
  bswap32 ((VSID <<< 7) ||| api ||| PTE1_V)

/-- Word address of slot `i` (0..7) of the page-table-entry group selected
by `hash`. -/
def ptegSlotAddr (st : MachState) (hash : Nat) (i : Nat) : Nat :=
  (((hash &&& st.pagetable_hashmask) <<< 6) ||| st.pagetable_base) + 8 * i

/-- First slot of the group whose stored PTE1 word equals `pte1`. -/
def ptegSearch (st : MachState) (pte1 : Nat) (hash : Nat) : Option Nat :=
  (List.range 8).findSome? fun i =>
    if st.mem (ptegSlotAddr st hash i) = pte1 then some (ptegSlotAddr st hash i) else none

/-- The page-table walk of `TranslatePageAddress`: primary hash
(`VSID XOR pageIndex`), then the complemented hash with the H bit set in the
compare value; returns the address of the matching PTE1 slot. -/
def findPTE (st : MachState) (address : Nat) : Option Nat :=
  let sr := st.sr ((address >>> 28) &&& 0xF)
  let page_index := (address >>> 12) &&& 0xFFFF
  let VSID := sr &&& 0xFFFFFF
  let hash := VSID ^^^ page_index
  match ptegSearch st (pte1Raw st address) hash with
  | some a => some a
  | none =>
      ptegSearch st (pte1Raw st address ||| (PTE1_H <<< 24)) (0xFFFFFFFF ^^^ hash)

structure TranslateAddressResult where
  valid : Bool
  from_bat : Bool
  address : Nat
deriving DecidableEq, Repr

/-- `TranslatePageAddress`: TLB first; on miss (or change-bit update) walk
the hashed page table, set the referenced/changed bits according to the
access kind, write the PTE2 word back to physical memory (except for
no-side-effect probes), and refill the TLB unless the walk was triggered by
a change-bit update (the TLB was already updated in that case). -/
def translatePageAddress (st : MachState) (address : Nat) (flag : XCheckTLBFlag) :
    TranslateAddressResult × MachState :=
  let lk := lookupTLBPageAddress flag st address
  if lk.res = .found then (⟨true, false, lk.paddr⟩, lk.st)
  else
    let st1 := lk.st
    let offset := address &&& 0xFFF
    match findPTE st1 address with
    | none => (⟨false, false, 0⟩, st1)
    | some slot =>
        let pte2 := bswap32 (st1.mem (slot + 4))
        let pte2a :=
          match flag with
          | .noException => pte2
          | .read => pte2 ||| PTE2_R
          | .write => pte2 ||| PTE2_R ||| PTE2_C
          | .opcode => pte2 ||| PTE2_R
          | .noTranslate => pte2
        let st2 :=
          if flag ≠ XCheckTLBFlag.noException then
            { st1 with mem := fun a => if a = slot + 4 then bswap32 pte2a else st1.mem a }
          else st1
        let st3 := if lk.res ≠ .updateC then updateTLBEntry flag pte2a address st2 else st2
        (⟨true, false, (pteRPN pte2a <<< 12) ||| offset⟩, st3)

/-- `TranslateAddress`: BAT fast path (valid bit in the table entry), else
the page-table path. -/
def translateAddress (flag : XCheckTLBFlag) (st : MachState) (address : Nat) :
    TranslateAddressResult × MachState :=
  let table := if isOpcodeFlag flag then st.ibat else st.dbat
  let batResult := table (address >>> 17)
  if batResult &&& 1 ≠ 0 then
    (⟨true, true, (batResult &&& 0xFFFFFFFE) ||| (address &&& 0x1FFFF)⟩, st)
  else translatePageAddress st address flag

/-- `GenerateDSIException`: outside MMU mode only a panic message; in MMU
mode, record DSISR, DAR and latch the DSI exception bit.  Note the source
selects the DSISR store bit from `effectiveAddress` being nonzero, not from
the `write` parameter (which is unused here, exactly as in the source). -/
def generateDSIException (st : MachState) (effectiveAddress : Nat) ( write : Bool) :
    MachState :=
  if ¬ st.bMMU then { st with panic := true }
  else
    { st with
      dsisr := if effectiveAddress ≠ 0 then PPC_EXC_DSISR_PAGE ||| PPC_EXC_DSISR_STORE
               else PPC_EXC_DSISR_PAGE
      dar := effectiveAddress
      exceptions := st.exceptions ||| EXCEPTION_DSI }

/-- Outcome of the translation phase of the access router (the part of
`ReadFromHardware` / `WriteToHardware` before physical-region dispatch):
either the translation faulted (exception state recorded, read yields zero /
write dropped), or one physical address, or — for an access straddling a
page boundary — two physical base addresses accessed byte by byte. -/
inductive AccessPhase
  | fault (st : MachState)
  | phys (address : Nat) (st : MachState)
  | splitPhys (a1 a2 : Nat) (st : MachState)

def phaseIsFault : AccessPhase → Bool
  | .fault _ => true
  | _ => false

def phaseState : AccessPhase → MachState
  | .fault st => st
  | .phys _ st => st
  | .splitPhys _ _ st => st

/-- Translation phase of `ReadFromHardware` for an access of `size` bytes:
translate when enabled; on failure raise a DSI (for `FLAG_READ` only) with
the write direction `false`; split accesses crossing a page boundary. -/
def readAccessPhase (flag : XCheckTLBFlag) (size : Nat) (st : MachState) (em : Nat) :
    AccessPhase :=
  if flag ≠ XCheckTLBFlag.noTranslate ∧ st.msrDR then
    let r := translateAddress flag st em
    if ¬ r.1.valid then
      .fault (if flag = XCheckTLBFlag.read then generateDSIException r.2 em false else r.2)
    else if (em &&& (HW_PAGE_SIZE - 1)) > HW_PAGE_SIZE - size then
      let emNext := ((em + size - 1) % 2 ^ 32) &&& 0xFFFFF000
      let r2 := translateAddress flag r.2 emNext
      if ¬ r2.1.valid then
        .fault (if flag = XCheckTLBFlag.read then generateDSIException r2.2 emNext false else r2.2)
      else .splitPhys r.1.address r2.1.address r2.2
    else .phys r.1.address r.2
  else .phys em st

/-- Translation phase of `WriteToHardware`: as for reads, but the faulting
direction passed to the DSI generator is `true`, and the split path is taken
only for a misaligned access (`em & (size-1)` nonzero) crossing a page
boundary. -/
def writeAccessPhase (flag : XCheckTLBFlag) (size : Nat) (st : MachState) (em : Nat) :
    AccessPhase :=
  if flag ≠ XCheckTLBFlag.noTranslate ∧ st.msrDR then
    let r := translateAddress flag st em
    if ¬ r.1.valid then
      .fault (if flag = XCheckTLBFlag.write then generateDSIException r.2 em true else r.2)
    else if (em &&& (size - 1)) ≠ 0 ∧ (em &&& (HW_PAGE_SIZE - 1)) > HW_PAGE_SIZE - size then
      let emNext := ((em + size - 1) % 2 ^ 32) &&& 0xFFFFF000
      let r2 := translateAddress flag r.2 emNext
      if ¬ r2.1.valid then
        .fault (if flag = XCheckTLBFlag.write then generateDSIException r2.2 emNext true else r2.2)
      else .splitPhys r.1.address r2.1.address r2.2
    else .phys r.1.address r.2
  else .phys em st

/-! ## BAT table rebuild

`ComputeBATTranslations` / `UpdateBATs` / `DBATUpdated` from `part_000`.
The register fields follow `UReg_BAT_Up` / `UReg_BAT_Lo`: `BEPI` is bits
17..31 of the upper register, `BL` bits 2..12 of the upper register, `BRPN`
bits 17..31 of the lower register and `PP` bits 0..1 of the lower
register. -/

def batBEPI (batu : Nat) : Nat := (batu >>> 17) &&& 0x7FFF
def batBL (batu : Nat) : Nat := (batu >>> 2) &&& 0x7FF
def batBRPN (batl : Nat) : Nat := (batl >>> 17) &&& 0x7FFF
def batPP (batl : Nat) : Nat := batl &&& 3

structure BATPairMapping where
  logical_address : Nat
  logical_size : Nat
  translated_address : Nat
deriving DecidableEq, Repr, Inhabited

/-- `ComputeBATTranslations`, one register pair: decode base, size
(`(BL+1) << 17`, zeroed when the protection field is 0) and physical
base. -/
def computeBATPair (batu batl : Nat) : BATPairMapping :=
  { logical_address := batBEPI batu <<< 17
    logical_size := if batPP batl = 0 then 0 else (batBL batu + 1) <<< 17
    translated_address := batBRPN batl <<< 17 }

def computeBATTranslations (sprs : List (Nat × Nat)) : List BATPairMapping :=
  sprs.map fun p => computeBATPair p.1 p.2

/-- Number of entries of `dbat_table` / `ibat_table` (`1 << (32 - 17)`). -/
def BAT_TABLE_SIZE : Nat := 2 ^ 15

/-- Bounds-checked embedding of a store to the flat BAT table.  The source
writes `bat_table[i]` unguarded; an index outside the table is an
out-of-bounds store there, modelled here by the out-of-range branch that
leaves the table unchanged. -/
def batTableWrite (t : Nat → Nat) (i v : Nat) : Nat → Nat :=
  if i < BAT_TABLE_SIZE then fun k => if k = i then v else t k else t

/-- Inner loop body of `UpdateBATs` for granule `j` of one pair. -/
def writeBATGranule (start ta : Nat) (t : Nat → Nat) (j : Nat) : Nat → Nat :=
  batTableWrite t (start + j) (((ta + (j <<< 17)) % 2 ^ 32) ||| 1)

/-- `UpdateBATs` for one pair mapping: write every covered granule. -/
def applyBATPair (t : Nat → Nat) (m : BATPairMapping) : Nat → Nat :=
  (List.range (m.logical_size >>> 17)).foldl
    (writeBATGranule (m.logical_address >>> 17) m.translated_address) t

/-- `UpdateBATs` over the eight pair mappings. -/
def updateBATs (t : Nat → Nat) (ms : List BATPairMapping) : Nat → Nat :=
  ms.foldl applyBATPair t

/-- The list of table indices the `UpdateBATs` loops store to, in store
order. -/
def updateBATsWriteIndices (ms : List BATPairMapping) : List Nat :=
  (ms.map fun m =>
    (List.range (m.logical_size >>> 17)).map fun j => (m.logical_address >>> 17) + j).flatten

/-- The mapping array built by `DBATUpdated` / `IBATUpdated`: four pairs
from the architectural registers, four more in extended-BAT mode, the rest
zero-initialized. -/
def batMappings (sprs : List (Nat × Nat)) (extended : Bool) : List BATPairMapping :=
  if extended then computeBATTranslations (sprs.take 8)
  else computeBATTranslations (sprs.take 4) ++ List.replicate 4 ⟨0, 0, 0⟩

/-- `DBATUpdated` with fake-VMEM mode disabled (and likewise `IBATUpdated`):
zero-fill the table, decode the register pairs, rebuild.  `sprs` lists the
(upper, lower) register values of the (up to eight) pairs. -/
def dbatUpdated (sprs : List (Nat × Nat)) (extended : Bool) : Nat → Nat :=
  updateBATs (fun _ => 0) (batMappings sprs extended)

/-! ## JIT block cache

Embedding of `JitBaseBlockCache` (`part_001` together with the declarations
in `JitCache.h`).  Native code pointers (`checkedEntry`, `normalEntry`,
`exitPtrs`, `blockCodePointers`) are opaque byte buffers patched through
`WriteLinkBlock` / `WriteDestroyBlock`; the cache's own bookkeeping for them
is the `linkStatus` / `invalid` flags, which are modelled.  The
`fifoWriteAddresses` purge in `InvalidateICache` touches a field of the
surrounding jit object, not of the cache, and is not modelled.  `blocks`
models the live prefix (`num_blocks` entries) of the fixed block array; the
fields a slot keeps from earlier use are overwritten by `AllocateBlock` and
by the code generator (modelled by `setBlockPayload`) before they are
read. -/

structure LinkData where
  exitAddress : Nat
  linkStatus : Bool
deriving DecidableEq, Repr

structure JitBlock where
  originalAddress : Nat
  originalSize : Nat
  invalid : Bool
  linkData : List LinkData
deriving DecidableEq, Repr

structure JitCacheState where
  blocks : List JitBlock
  links_to : List (Nat × Nat)
  block_map : List ((Nat × Nat) × Nat)
  valid_block : Nat → Bool
  physPages : Nat → Bool
  physVal : Nat → Nat → Nat
  panic_invalid_destroy : Bool
  panic_other : Bool

/-- Strict lexicographic order used by `std::map<std::pair<u32,u32>, u32>`. -/
def keyLt (k1 k2 : Nat × Nat) : Bool := k1.1 < k2.1 ∨ (k1.1 = k2.1 ∧ k1.2 < k2.2)

/-- Ordered-map insert-or-assign (`block_map[key] = value`). -/
def mapInsert : List ((Nat × Nat) × Nat) → Nat × Nat → Nat → List ((Nat × Nat) × Nat)
  | [], k, v => [(k, v)]
  | e :: rest, k, v =>
      if keyLt k e.1 then (k, v) :: e :: rest
      else if k = e.1 then (k, v) :: rest
      else e :: mapInsert rest k v

def emptyCache : JitCacheState :=
  { blocks := [], links_to := [], block_map := [], valid_block := fun _ => false,
    physPages := fun _ => false, physVal := fun _ _ => 0xFFFFFFFF,
    panic_invalid_destroy := false, panic_other := false }

/-- Page / slot of the paged start-address index `m_phys_addrs` for a guest
address: page `addr >> 14`, slot `(addr >> 2) & (2^12 - 1)`. -/
def physPageOf (addr : Nat) : Nat := addr >>> 14

def physSlotOf (addr : Nat) : Nat := (addr >>> 2) &&& 0xFFF

/-- Allocate (if needed) the index page, `memset` to `0xFF` bytes. -/
def physAllocPage (st : JitCacheState) (page : Nat) : JitCacheState :=
  if st.physPages page then st
  else
    { st with physPages := fun p => if p = page then true else st.physPages p,
              physVal := fun p s => if p = page then 0xFFFFFFFF else st.physVal p s }

def physWrite (st : JitCacheState) (page slot v : Nat) : JitCacheState :=
  { st with physVal := fun p s => if p = page ∧ s = slot then v else st.physVal p s }

/-- `GetBlockNumberFromStartAddress`: `-1` when the page was never
allocated, else the stored `u32` read back as an `int`
(`0xFFFFFFFF`, the `memset` fill, reads back as `-1`). -/
def getBlockNumberFromStartAddress (st : JitCacheState) (addr : Nat) : Int :=
  if ¬ st.physPages (physPageOf addr) then -1
  else u32ToInt (st.physVal (physPageOf addr) (physSlotOf addr))

/-- `AllocateBlock`: take the next slot, mark it valid, record the start
address, clear the exit list, bump `num_blocks`. -/
def allocateBlock (st : JitCacheState) (em_address : Nat) : JitCacheState :=
  { st with blocks := st.blocks ++
      [{ originalAddress := em_address, originalSize := 0, invalid := false, linkData := [] }] }

/-- The code generator's writes to the block between `AllocateBlock` and
`FinalizeBlock` (it fills `originalSize` and pushes the exit `linkData`);
these happen outside the cache code proper. -/
def setBlockPayload (st : JitCacheState) (bn : Nat) (size : Nat) (ld : List LinkData) :
    JitCacheState :=
  match st.blocks[bn]? with
  | none => st
  | some b => { st with blocks := st.blocks.set bn { b with originalSize := size, linkData := ld } }

/-- Update one block in place. -/
def updBlock (st : JitCacheState) (bn : Nat) (f : JitBlock → JitBlock) : JitCacheState :=
  match st.blocks[bn]? with
  | none => st
  | some b => { st with blocks := st.blocks.set bn (f b) }

/-- 32-bit subtraction. -/
def u32sub (a b : Nat) : Nat := (a + 2 ^ 32 - b % 2 ^ 32) % 2 ^ 32

/-- Last byte of a block's guest range as `FinalizeBlock` computes it for
the `block_map` key: `originalAddress + 4 * originalSize - 1` in `u32`
arithmetic. -/
def blockEndKey (b : JitBlock) : Nat :=
  u32sub ((b.originalAddress + 4 * b.originalSize) % 2 ^ 32) 1

/-- `LinkBlockExits`: for a live block, mark (and patch) every still-unlinked
exit whose target address is present in the start-address index. -/
def linkBlockExits (st : JitCacheState) (i : Nat) : JitCacheState :=
  match st.blocks[i]? with
  | none => st
  | some b =>
      if b.invalid then st
      else
        let newLD := b.linkData.map fun e =>
          if ¬ e.linkStatus ∧ getBlockNumberFromStartAddress st e.exitAddress ≠ -1 then
            { e with linkStatus := true }
          else e
        { st with blocks := st.blocks.set i { b with linkData := newLD } }

/-- `LinkBlock`: link this block's own exits, then re-run exit linking for
every block registered (in `links_to`) as jumping to this block's start
address. -/
def linkBlock (st : JitCacheState) (i : Nat) : JitCacheState :=
  let st1 := linkBlockExits st i
  match st1.blocks[i]? with
  | none => st1
  | some b =>
      ((st1.links_to.filter fun p => p.1 = b.originalAddress).map Prod.snd).foldl
        linkBlockExits st1

/-- `UnlinkBlock`: clear the `linkStatus` of every exit (of every block that
links here) targeting this block's start address, then drop all `links_to`
entries for that address. -/
def unlinkBlock (st : JitCacheState) (i : Nat) : JitCacheState :=
  match st.blocks[i]? with
  | none => st
  | some b =>
      let st1 :=
        ((st.links_to.filter fun p => p.1 = b.originalAddress).map Prod.snd).foldl
          (fun acc src =>
            updBlock acc src fun sb =>
              { sb with linkData := sb.linkData.map fun e =>
                  if e.exitAddress = b.originalAddress then { e with linkStatus := false }
                  else e })
          st
      { st1 with links_to := st1.links_to.filter fun p => p.1 ≠ b.originalAddress }

/-- `FinalizeBlock`: set the granule bits the block's instruction range
covers, index the block under `(endAddress, startAddress)`, store its number
in the paged start-address index, and (when linking) register its exits in
`links_to` and run both link passes.  Registering the native entry point in
`blockCodePointers` and the profiler is not modelled. -/
def finalizeBlock (st : JitCacheState) (block_num : Nat) (block_link : Bool) : JitCacheState :=
  match st.blocks[block_num]? with
  | none => { st with panic_other := true }
  | some b =>
      let firstG := b.originalAddress / 32
      let lastG := ((b.originalAddress + u32sub b.originalSize 1 * 4 % 2 ^ 32) % 2 ^ 32) / 32
      let st1 := { st with valid_block := fun g =>
        if firstG ≤ g ∧ g ≤ lastG then true else st.valid_block g }
      let st2 := { st1 with
        block_map := mapInsert st1.block_map (blockEndKey b, b.originalAddress) block_num }
      let st3 := physWrite (physAllocPage st2 (physPageOf b.originalAddress))
        (physPageOf b.originalAddress) (physSlotOf b.originalAddress) block_num
      if block_link then
        let st4 := { st3 with
          links_to := st3.links_to ++ b.linkData.map fun e => (e.exitAddress, block_num) }
        linkBlockExits (linkBlock st4 block_num) block_num
      else st3

/-- `DestroyBlock`: reject out-of-range numbers; report (`PanicAlert
"Invalidating invalid block"`) a second destroy of the same block when
`invalidate` is set; otherwise mark invalid, unlink, and store the block
number back into the start-address index (the source writes `block_num`
itself here; for a block whose index page was never allocated that store
dereferences a null page pointer, modelled by `panic_other`).  Patching the
checked entry point to the dispatcher is a native-code effect, not
modelled. -/
def destroyBlock (st : JitCacheState) (block_num : Int) (invalidate : Bool) : JitCacheState :=
  if block_num < 0 ∨ (st.blocks.length : Int) ≤ block_num then { st with panic_other := true }
  else
    match st.blocks[block_num.toNat]? with
    | none => { st with panic_other := true }
    | some b =>
        if b.invalid then
          if invalidate then { st with panic_invalid_destroy := true } else st
        else
          let st1 := updBlock st block_num.toNat fun bb => { bb with invalid := true }
          let st2 := unlinkBlock st1 block_num.toNat
          if st2.physPages (physPageOf b.originalAddress) then
            physWrite st2 (physPageOf b.originalAddress) (physSlotOf b.originalAddress)
              block_num.toNat
          else { st2 with panic_other := true }

/-- `Clear`: destroy every block, drop both indices, clear the granule
bitset, reset `num_blocks`, free all pages of the start-address index. -/
def clearCache (st : JitCacheState) : JitCacheState :=
  let st1 := (List.range st.blocks.length).foldl
    (fun acc i => destroyBlock acc (i : Int) false) st
  { st1 with blocks := [], links_to := [], block_map := [],
             valid_block := fun _ => false, physPages := fun _ => false }

/-- The contiguous `block_map` segment `InvalidateICache` scans: from
`lower_bound((address, 0))` up to (exclusive) the first entry whose start
address is at or past `address + length`. -/
def invScanSeg (m : List ((Nat × Nat) × Nat)) (address length : Nat) :
    List ((Nat × Nat) × Nat) :=
  (m.dropWhile fun e => keyLt e.1 (address, 0)).takeWhile
    fun e => e.1.2 < (address + length) % 2 ^ 32

/-- Whether a call `InvalidateICache(address, length, _)` reaches the
destroy path (`destroy_block` in the source). -/
def invReachesDestroy (st : JitCacheState) (address length : Nat) : Bool :=
  if length = 32 then st.valid_block (address / 32) else true

/-- The block numbers a call `InvalidateICache(address, length, _)` calls
`DestroyBlock` on, in call order. -/
def invDestroyedBlocks (st : JitCacheState) (address length : Nat) : List Nat :=
  if invReachesDestroy st address length then
    (invScanSeg st.block_map address length).map Prod.snd
  else []

/-- Fast-path granule-bit clear of `InvalidateICache` (`length == 32` with
the bit set). -/
def invFastPathState (st : JitCacheState) (address length : Nat) : JitCacheState :=
  if length = 32 ∧ st.valid_block (address / 32) then
    { st with valid_block := fun g => if g = address / 32 then false else st.valid_block g }
  else st

/-- `InvalidateICache`: fast path for `length == 32` — if the granule bit is
already clear nothing can be affected, otherwise clear it; then (unless the
fast path bailed out) destroy every block in the scanned `block_map` segment
and erase the segment. -/
def invalidateICache (st : JitCacheState) (address length : Nat) ( forced : Bool) :
    JitCacheState :=
  let destroy_block := invReachesDestroy st address length
  let st0 := invFastPathState st address length
  if destroy_block then
    let seg := invScanSeg st0.block_map address length
    let st1 := seg.foldl (fun acc e => destroyBlock acc (u32ToInt e.2) true) st0
    let kept := st0.block_map.takeWhile fun e => keyLt e.1 (address, 0)
    let tail := (st0.block_map.dropWhile fun e => keyLt e.1 (address, 0)).drop seg.length
    { st1 with block_map := kept ++ tail }
  else st0

/-! ## Memory snapshot serialization

`Memory::DoState` (`Memmap.cpp`): the sequence of raw region dumps and
named markers written to (or read from) the state stream, in stream
order. -/

inductive MemRegion
  | ram
  | l1cache
  | fakeVMEM
  | exram
deriving DecidableEq, Repr

inductive StateChunk
  | regionDump (r : MemRegion)
  | marker (name : String)
deriving DecidableEq, Repr

/-- The serialization trace of `Memory::DoState`, depending on the console
variant (`wii`) and on fake-VMEM mode. -/
def doStateTrace (wii fakeVMEM : Bool) : List StateChunk :=
  [.regionDump .ram, .regionDump .l1cache, .marker "Memory RAM"]
    ++ (if fakeVMEM then [.regionDump .fakeVMEM] else [])
    ++ [.marker "Memory FakeVMEM"]
    ++ (if wii then [.regionDump .exram] else [])
    ++ [.marker "Memory EXRAM"]

/-- The region-dump order the claim states (spec wording): primary RAM,
locked cache, then optionally expansion RAM, then optionally fake virtual
memory, a named marker between sections. -/
def claimedStateTrace (wii fakeVMEM : Bool) : List StateChunk :=
  [.regionDump .ram, .regionDump .l1cache, .marker "Memory RAM"]
    ++ (if wii then [.regionDump .exram] else [])
    ++ [.marker "Memory EXRAM"]
    ++ (if fakeVMEM then [.regionDump .fakeVMEM] else [])
    ++ [.marker "Memory FakeVMEM"]

/-- The dumped regions of a trace, in stream order. -/
def traceRegions (t : List StateChunk) : List MemRegion :=
  t.filterMap fun c =>
    match c with
    | .regionDump r => some r
    | .marker _ => none

/-- The region-dump order per the amended claim: primary RAM, locked cache,
then optionally fake virtual memory, then optionally expansion RAM; one
marker after the RAM and locked-cache dumps and one after each optional
section's slot. -/
def amendedStateTrace (wii fakeVMEM : Bool) : List StateChunk :=
  let head := [StateChunk.regionDump .ram, StateChunk.regionDump .l1cache,
               StateChunk.marker "Memory RAM"]
  let fakeSection := (if fakeVMEM then [StateChunk.regionDump .fakeVMEM] else [])
      ++ [StateChunk.marker "Memory FakeVMEM"]
  let exramSection := (if wii then [StateChunk.regionDump .exram] else [])
      ++ [StateChunk.marker "Memory EXRAM"]
  head ++ fakeSection ++ exramSection

/-! ## Claim C10: snapshot serialization order -/

/-- C10 counterexample: with both optional regions present, `DoState` dumps
the fake-virtual-memory region before the expansion RAM region, so the
trace differs from the order the claim states (primary RAM, locked cache,
expansion RAM, fake virtual memory). -/
theorem c10_trace_order_counterexample :
    doStateTrace true true ≠ claimedStateTrace true true ∧
    traceRegions (doStateTrace true true) =
      [MemRegion.ram, MemRegion.l1cache, MemRegion.fakeVMEM, MemRegion.exram] ∧
    traceRegions (claimedStateTrace true true) =
      [MemRegion.ram, MemRegion.l1cache, MemRegion.exram, MemRegion.fakeVMEM] := by
  decide

/-- C10 (amended): the snapshot serializes primary RAM, then the
locked-cache region, then a marker; then optionally the fake-virtual-memory
region followed by its marker; then optionally the expansion RAM region
followed by its marker. -/
theorem c10_dostate_order :
    ∀ wii fakeVMEM : Bool, doStateTrace wii fakeVMEM = amendedStateTrace wii fakeVMEM := by
  decide

/-! ## Claim C2: block lookup after finalize / destroy -/

/-- Cache state with one block allocated at `0x1000` (16 instructions) and
finalized. -/
def c2State : JitCacheState :=
  finalizeBlock (setBlockPayload (allocateBlock emptyCache 0x1000) 0 16 []) 0 true

/-- C2: after `FinalizeBlock` the start-address lookup returns the block's
id (first half of the claim, which holds); but after `DestroyBlock` the
lookup still returns the block id — `DestroyBlock` stores `block_num` itself
back into the index slot instead of the `-1` not-found sentinel — so the
second half of the claim fails on the code. -/
theorem c2_lookup_after_destroy :
    getBlockNumberFromStartAddress c2State 0x1000 = 0 ∧
    getBlockNumberFromStartAddress (destroyBlock c2State 0 true) 0x1000 = 0 ∧
    ((destroyBlock c2State 0 true).blocks[0]?.map JitBlock.invalid) = some true ∧
    ((0 : Int) ≠ -1) := by
  decide

/-! ## Claim C3: DSI on failed data translation -/

def tlbEntryInvalid : TlbEntry :=
  ⟨TLB_TAG_INVALID, TLB_TAG_INVALID, 0, 0, 0, 0, 0⟩

/-- MMU-mode machine state with translation enabled, no BAT mappings and an
empty hashed page table (all memory words zero), so every translation
fails. -/
def c3State : MachState :=
  { msrDR := true, bMMU := true, sr := fun _ => 0, pagetable_base := 0,
    pagetable_hashmask := 0x3FF, dbat := fun _ => 0, ibat := fun _ => 0,
    tlbData := fun _ => tlbEntryInvalid, tlbInst := fun _ => tlbEntryInvalid,
    mem := fun _ => 0, dsisr := 0, dar := 0, exceptions := 0, panic := false }

/-- C3: a failed-translation read at the nonzero effective address
`0x10000000` raises the DSI with DAR and the exception bit set as claimed,
but DSISR carries the store-direction bit even though the access was a read
— the source selects that bit from the address being nonzero, not from the
access direction; symmetrically a failed write at effective address 0 does
not get the store bit. -/
theorem c3_dsisr_store_bit :
    phaseIsFault (readAccessPhase .read 4 c3State 0x10000000) = true ∧
    (phaseState (readAccessPhase .read 4 c3State 0x10000000)).dsisr =
      (PPC_EXC_DSISR_PAGE ||| PPC_EXC_DSISR_STORE) ∧
    (phaseState (readAccessPhase .read 4 c3State 0x10000000)).dar = 0x10000000 ∧
    (phaseState (readAccessPhase .read 4 c3State 0x10000000)).exceptions &&& EXCEPTION_DSI ≠ 0 ∧
    phaseIsFault (writeAccessPhase .write 4 c3State 0) = true ∧
    (phaseState (writeAccessPhase .write 4 c3State 0)).dsisr = PPC_EXC_DSISR_PAGE := by
  decide

/-! ## Claim C9: BAT rebuild write indices -/

/-- DBAT0 with maximal `BEPI` (0x7FFF) and maximal `BL` (0x7FF), protection
nonzero; remaining pairs disabled. -/
def c9Sprs : List (Nat × Nat) := [(0xFFFE1FFC, 0x00000002), (0, 0), (0, 0), (0, 0)]

/-- C9: with maximal `BEPI` and `BL` the rebuild loop stores to index
`0x7FFF + 0x7FF = 34814`, which is not below the `2^15`-entry table size:
the out-of-range branch of the bounds-checked table write is reachable, and
in the source this store lands out of bounds of `dbat_table`. -/
theorem c9_write_index_out_of_range :
    batBEPI 0xFFFE1FFC = 0x7FFF ∧ batBL 0xFFFE1FFC = 0x7FF ∧ batPP 0x00000002 ≠ 0 ∧
    34814 ∈ updateBATsWriteIndices (batMappings c9Sprs false) ∧
    ¬ (34814 < BAT_TABLE_SIZE) := by
  decide

/-! ## Claim C4: BAT round trip -/

/-- Two enabled BAT pairs both covering effective address 0, mapping it to
physical `0x20000` (pair 0) and `0x40000` (pair 1). -/
def c4Sprs : List (Nat × Nat) :=
  [(0, (1 <<< 17) ||| 2), (0, (2 <<< 17) ||| 2), (0, 0), (0, 0)]

def c4State : MachState :=
  { c3State with dbat := dbatUpdated c4Sprs false }

/-- C4 counterexample: pair 0 has nonzero protection and covers address 0
with physical base `0x20000`, yet address 0 translates to `0x40000` —
the table rebuild is last-write-wins per granule, so an earlier pair
overlapped by a later one does not translate to its own physical base, as
the claim (quantifying over every pair) would require. -/
theorem c4_overlap_counterexample :
    batPP ((1 <<< 17) ||| 2) ≠ 0 ∧
    (computeBATPair 0 ((1 <<< 17) ||| 2)).logical_address = 0 ∧
    (computeBATPair 0 ((1 <<< 17) ||| 2)).logical_size = 0x20000 ∧
    (computeBATPair 0 ((1 <<< 17) ||| 2)).translated_address = 0x20000 ∧
    (translateAddress .read c4State 0).1 =
      ⟨true, true, 0x40000⟩ ∧
    (0x40000 : Nat) ≠ 0x20000 + (0 - 0) := by
  decide

/-- Granule coverage of one BAT pair mapping. -/
def batCovers (m : BATPairMapping) (idx : Nat) : Prop :=
  m.logical_address >>> 17 ≤ idx ∧ idx < m.logical_address >>> 17 + m.logical_size >>> 17

instance (m : BATPairMapping) (idx : Nat) : Decidable (batCovers m idx) := by
  unfold batCovers
  infer_instance

/-- Table entry one pair's rebuild loop stores for a granule it covers. -/
def batEntryValue (m : BATPairMapping) (idx : Nat) : Nat :=
  ((m.translated_address + ((idx - m.logical_address >>> 17) <<< 17)) % 2 ^ 32) ||| 1

theorem batTableWrite_apply (t : Nat → Nat) (i v k : Nat) :
    batTableWrite t i v k = if i < BAT_TABLE_SIZE ∧ k = i then v else t k := by
  unfold batTableWrite
  by_cases h : i < BAT_TABLE_SIZE
  · by_cases hk : k = i <;> simp [h, hk]
  · simp [h]

theorem writeBATGranule_apply (start ta : Nat) (t : Nat → Nat) (j k : Nat) :
    writeBATGranule start ta t j k =
      if start + j < BAT_TABLE_SIZE ∧ k = start + j then ((ta + (j <<< 17)) % 2 ^ 32) ||| 1
      else t k := by
  unfold writeBATGranule
  rw [batTableWrite_apply]

theorem range_foldl_writeBATGranule (start ta : Nat) (n : Nat) (t : Nat → Nat) (idx : Nat) :
    ((List.range n).foldl (writeBATGranule start ta) t) idx =
      if start ≤ idx ∧ idx < start + n ∧ idx < BAT_TABLE_SIZE then
        ((ta + ((idx - start) <<< 17)) % 2 ^ 32) ||| 1
      else t idx := by
  induction n generalizing t with
  | zero =>
    simp only [List.range_zero, List.foldl_nil]
    rw [if_neg (by omega)]
  | succ n ih =>
    rw [List.range_succ, List.foldl_append, List.foldl_cons, List.foldl_nil]
    rw [writeBATGranule_apply, ih]
    by_cases heq : idx = start + n
    · subst heq
      by_cases hsz : start + n < BAT_TABLE_SIZE
      · rw [if_pos ⟨hsz, rfl⟩, if_pos (by omega)]
        have hn : start + n - start = n := by omega
        rw [hn]
      · rw [if_neg (by omega), if_neg (by omega), if_neg (by omega)]
    · rw [if_neg (by omega)]
      by_cases hin : start ≤ idx ∧ idx < start + n ∧ idx < BAT_TABLE_SIZE
      · rw [if_pos hin, if_pos (by omega)]
      · rw [if_neg hin, if_neg (by omega)]

theorem applyBATPair_read (t : Nat → Nat) (m : BATPairMapping) (idx : Nat)
    (hidx : idx < BAT_TABLE_SIZE) :
    applyBATPair t m idx = if batCovers m idx then batEntryValue m idx else t idx := by
  unfold applyBATPair batCovers batEntryValue
  rw [range_foldl_writeBATGranule]
  split
  · rw [if_pos (by omega)]
  · rw [if_neg (by omega)]

theorem updateBATs_cons (m : BATPairMapping) (ms : List BATPairMapping) (t : Nat → Nat) :
    updateBATs t (m :: ms) = updateBATs (applyBATPair t m) ms := rfl

theorem updateBATs_miss (ms : List BATPairMapping) (t : Nat → Nat) (idx : Nat)
    (hidx : idx < BAT_TABLE_SIZE) (h : ∀ m ∈ ms, ¬ batCovers m idx) :
    updateBATs t ms idx = t idx := by
  induction ms generalizing t with
  | nil => rfl
  | cons m ms ih =>
    rw [updateBATs_cons, ih _ fun x hx => h x (List.mem_cons_of_mem m hx)]
    rw [applyBATPair_read _ _ _ hidx, if_neg (h m (List.mem_cons_self m ms))]

theorem updateBATs_hit (ms : List BATPairMapping) (t : Nat → Nat) (idx : Nat)
    (hidx : idx < BAT_TABLE_SIZE) (i : Fin ms.length)
    (hcov : batCovers (ms.get i) idx)
    (hlater : ∀ k : Fin ms.length, i.val < k.val → ¬ batCovers (ms.get k) idx) :
    updateBATs t ms idx = batEntryValue (ms.get i) idx := by
  induction ms generalizing t with
  | nil => exact i.elim0
  | cons m ms ih =>
    rw [updateBATs_cons]
    rcases i with ⟨iv, hiv⟩
    cases iv with
    | zero =>
      have hget0 : (m :: ms).get ⟨0, hiv⟩ = m := rfl
      rw [hget0] at hcov ⊢
      have hnone : ∀ x ∈ ms, ¬ batCovers x idx := by
        intro x hx
        obtain ⟨k, hxk⟩ := List.get_of_mem hx
        have hks : (m :: ms).get ⟨k.val + 1, Nat.succ_lt_succ k.isLt⟩ = ms.get k := rfl
        have := hlater ⟨k.val + 1, Nat.succ_lt_succ k.isLt⟩ (Nat.succ_pos _)
        rw [hks, hxk] at this
        exact this
      rw [updateBATs_miss _ _ _ hidx hnone]
      rw [applyBATPair_read _ _ _ hidx, if_pos hcov]
    | succ j =>
      have hj : j < ms.length := Nat.lt_of_succ_lt_succ hiv
      have hgetj : (m :: ms).get ⟨j + 1, hiv⟩ = ms.get ⟨j, hj⟩ := rfl
      rw [hgetj] at hcov ⊢
      have hlater2 : ∀ k : Fin ms.length, j < k.val → ¬ batCovers (ms.get k) idx := by
        intro k hk
        have hks : (m :: ms).get ⟨k.val + 1, Nat.succ_lt_succ k.isLt⟩ = ms.get k := rfl
        have := hlater ⟨k.val + 1, Nat.succ_lt_succ k.isLt⟩ (Nat.succ_lt_succ hk)
        rw [hks] at this
        exact this
      exact ih (applyBATPair t m) ⟨j, hj⟩ hcov hlater2

/-- The arithmetic core of the BAT round trip: the even part of the stored
entry plus the low 17 address bits is the claimed translation. -/
theorem c4_arith {base ta a : Nat} (hb : base % 2 ^ 17 = 0) (hta : ta % 2 ^ 17 = 0)
    (ha : a < 2 ^ 32) (hba : base ≤ a) :
    (ta + (a / 2 ^ 17 - base / 2 ^ 17) * 2 ^ 17) % 2 ^ 32 + a % 2 ^ 17 =
      (ta + (a - base)) % 2 ^ 32 := by
  omega

/-- C4 (amended): after the BAT rebuild (fake-VMEM disabled), for every
register pair with non-zero protection that is the last configured pair
covering an effective address `a` — the rebuild is last-write-wins per
granule — `a` translates via the data-BAT fast path to
`(physBase + (a - base)) mod 2^32` with the table entry's valid bit set;
and every address covered by no configured pair misses the BAT table and
falls through to the page-table translation path. -/
theorem c4_bat_round_trip (sprs : List (Nat × Nat)) (extended : Bool) (st : MachState)
    (hst : st.dbat = dbatUpdated sprs extended) :
    (∀ i : Fin (batMappings sprs extended).length, ∀ a < 2 ^ 32,
      ((batMappings sprs extended).get i).logical_size ≠ 0 →
      ((batMappings sprs extended).get i).logical_address ≤ a →
      a < ((batMappings sprs extended).get i).logical_address
          + ((batMappings sprs extended).get i).logical_size →
      (∀ k : Fin (batMappings sprs extended).length, i.val < k.val →
        ¬ (((batMappings sprs extended).get k).logical_address ≤ a ∧
           a < ((batMappings sprs extended).get k).logical_address
               + ((batMappings sprs extended).get k).logical_size)) →
      (translateAddress .read st a).1 =
        ⟨true, true,
          (((batMappings sprs extended).get i).translated_address
            + (a - ((batMappings sprs extended).get i).logical_address)) % 2 ^ 32⟩) ∧
    (∀ a < 2 ^ 32,
      (∀ m ∈ batMappings sprs extended,
        ¬ (m.logical_address ≤ a ∧ a < m.logical_address + m.logical_size)) →
      st.dbat (a >>> 17) &&& 1 = 0 ∧
      translateAddress .read st a = translatePageAddress st a .read) := by
  have hshape : ∀ m ∈ batMappings sprs extended,
      (∃ batu batl, m = computeBATPair batu batl) ∨ m = ⟨0, 0, 0⟩ := by
    intro m hm
    unfold batMappings at hm
    split at hm
    · unfold computeBATTranslations at hm
      obtain ⟨p, _, hp⟩ := List.mem_map.mp hm
      exact Or.inl ⟨p.1, p.2, hp.symm⟩
    · rcases List.mem_append.mp hm with hm | hm
      · unfold computeBATTranslations at hm
        obtain ⟨p, _, hp⟩ := List.mem_map.mp hm
        exact Or.inl ⟨p.1, p.2, hp.symm⟩
      · exact Or.inr (List.eq_of_mem_replicate hm)
  -- every mapping has a 17-bit-aligned base, size and physical base
  have haligned : ∀ m ∈ batMappings sprs extended,
      m.logical_address % 2 ^ 17 = 0 ∧ m.logical_size % 2 ^ 17 = 0 ∧
      m.translated_address % 2 ^ 17 = 0 := by
    intro m hm
    rcases hshape m hm with ⟨batu, batl, hcase⟩ | hcase
    · subst hcase
      unfold computeBATPair batBEPI batBL batBRPN
      refine ⟨?_, ?_, ?_⟩
      · simp [Nat.shiftLeft_eq, Nat.mul_mod_left]
      · by_cases hpp : batPP batl = 0 <;> simp [hpp, Nat.shiftLeft_eq, Nat.mul_mod_left]
      · simp [Nat.shiftLeft_eq, Nat.mul_mod_left]
    · subst hcase
      exact ⟨rfl, rfl, rfl⟩
  have haddr_of_gran : ∀ m ∈ batMappings sprs extended, ∀ a : Nat,
      batCovers m (a >>> 17) →
      m.logical_address ≤ a ∧ a < m.logical_address + m.logical_size := by
    intro m hm a hcov
    obtain ⟨hal, hsal, _⟩ := haligned m hm
    unfold batCovers at hcov
    rw [Nat.shiftRight_eq_div_pow, Nat.shiftRight_eq_div_pow, Nat.shiftRight_eq_div_pow] at hcov
    omega
  constructor
  · intro i a ha hsz hlo hhi hlater
    have hmem : (batMappings sprs extended).get i ∈ batMappings sprs extended := by
      have := List.get_mem (batMappings sprs extended) i.val i.isLt
      simpa only [Fin.eta] using this
    obtain ⟨hal, hsal, htal⟩ := haligned _ hmem
    have hidx : a >>> 17 < BAT_TABLE_SIZE := by
      unfold BAT_TABLE_SIZE
      rw [Nat.shiftRight_eq_div_pow]
      omega
    have hcov : batCovers ((batMappings sprs extended).get i) (a >>> 17) := by
      unfold batCovers
      rw [Nat.shiftRight_eq_div_pow, Nat.shiftRight_eq_div_pow, Nat.shiftRight_eq_div_pow]
      omega
    have hlater2 : ∀ k : Fin (batMappings sprs extended).length, i.val < k.val →
        ¬ batCovers ((batMappings sprs extended).get k) (a >>> 17) := by
      intro k hk hcovk
      have hmemk : (batMappings sprs extended).get k ∈ batMappings sprs extended := by
        have := List.get_mem (batMappings sprs extended) k.val k.isLt
        simpa only [Fin.eta] using this
      exact hlater k hk (haddr_of_gran _ hmemk a hcovk)
    have hval : st.dbat (a >>> 17) =
        batEntryValue ((batMappings sprs extended).get i) (a >>> 17) := by
      rw [hst]
      exact updateBATs_hit _ _ _ hidx i hcov hlater2
    set base := ((batMappings sprs extended).get i).logical_address with hbase
    set ta := ((batMappings sprs extended).get i).translated_address with hta
    have hj17 : ((a >>> 17 - base >>> 17) <<< 17) = (a >>> 17) * 2 ^ 17 - base := by
      rw [Nat.shiftLeft_eq, Nat.shiftRight_eq_div_pow, Nat.shiftRight_eq_div_pow]
      omega
    set m0 := (ta + ((a >>> 17 - base >>> 17) <<< 17)) % 2 ^ 32 with hm0def
    have hm0div : m0 % 2 ^ 17 = 0 := by
      rw [hm0def, hj17, Nat.shiftRight_eq_div_pow]
      omega
    have hm0lt : m0 < 2 ^ 32 := by
      rw [hm0def]
      exact Nat.mod_lt _ (by norm_num)
    have hentry : batEntryValue ((batMappings sprs extended).get i) (a >>> 17) = m0 + 1 := by
      unfold batEntryValue
      rw [← hta, ← hbase, ← hm0def]
      exact lor_one_of_even (by omega)
    unfold translateAddress
    have hop : isOpcodeFlag .read = false := rfl
    rw [hop]
    simp only [Bool.false_eq_true, if_false, hval, hentry]
    have hand1 : (m0 + 1) &&& 1 = 1 := by
      rw [Nat.and_one_is_mod]
      omega
    rw [if_pos (by rw [hand1]; exact one_ne_zero)]
    have hmask : (m0 + 1) &&& 0xFFFFFFFE = m0 := and_mask_fffffffe (by omega) hm0lt
    have hlow : a &&& 0x1FFFF = a % 2 ^ 17 := by
      have h17 : (0x1FFFF : Nat) = 2 ^ 17 - 1 := by norm_num
      rw [h17, Nat.and_pow_two_sub_one_eq_mod]
    have hor : m0 ||| a % 2 ^ 17 = m0 + a % 2 ^ 17 :=
      lor_eq_add 17 (by omega) (Nat.mod_lt _ (by norm_num))
    have hfinal : m0 + a % 2 ^ 17 = (ta + (a - base)) % 2 ^ 32 := by
      rw [hm0def, Nat.shiftLeft_eq, Nat.shiftRight_eq_div_pow, Nat.shiftRight_eq_div_pow]
      exact c4_arith hal htal ha hlo
    rw [hmask, hlow, hor, hfinal]
  · intro a ha hnone
    have hidx : a >>> 17 < BAT_TABLE_SIZE := by
      unfold BAT_TABLE_SIZE
      rw [Nat.shiftRight_eq_div_pow]
      omega
    have hmiss : st.dbat (a >>> 17) = 0 := by
      rw [hst]
      refine updateBATs_miss _ _ _ hidx ?_
      intro m hm hcov
      exact hnone m hm (haddr_of_gran m hm a hcov)
    refine ⟨by rw [hmiss]; rfl, ?_⟩
    unfold translateAddress
    have hop : isOpcodeFlag .read = false := rfl
    rw [hop]
    simp only [Bool.false_eq_true, if_false, hmiss]
    rw [if_neg (by simp)]

/-- C4 witness: in the two-pair configuration, address 5 is last covered by
pair 1 (physical base `0x40000`) and translates there; address `0x40000` is
covered by no pair and falls through to the page-table path. -/
theorem c4_witness :
    (translateAddress .read c4State 5).1 = ⟨true, true, 0x40005⟩ ∧
    translateAddress .read c4State 0x40000 = translatePageAddress c4State 0x40000 .read := by
  refine ⟨?_, ?_⟩
  · have h1 := (c4_bat_round_trip c4Sprs false c4State rfl).1 ⟨1, by decide⟩ 5 (by decide)
      (by decide) (by decide) (by decide) (by decide)
    exact h1.trans (by decide)
  · exact ((c4_bat_round_trip c4Sprs false c4State rfl).2 0x40000 (by decide) (by decide)).2

/-! ## Claim C5: change-bit persistence -/

theorem setTlb_mem (st : MachState) (op : Bool) (i : Nat) (e : TlbEntry) :
    (setTlb st op i e).mem = st.mem := by
  unfold setTlb
  cases op <;> rfl

theorem setTlb_sr (st : MachState) (op : Bool) (i : Nat) (e : TlbEntry) :
    (setTlb st op i e).sr = st.sr := by
  unfold setTlb
  cases op <;> rfl

theorem setTlb_base (st : MachState) (op : Bool) (i : Nat) (e : TlbEntry) :
    (setTlb st op i e).pagetable_base = st.pagetable_base := by
  unfold setTlb
  cases op <;> rfl

theorem setTlb_mask (st : MachState) (op : Bool) (i : Nat) (e : TlbEntry) :
    (setTlb st op i e).pagetable_hashmask = st.pagetable_hashmask := by
  unfold setTlb
  cases op <;> rfl

theorem getTlb_setTlb_same (st : MachState) (op : Bool) (i : Nat) (e : TlbEntry) :
    getTlb (setTlb st op i e) op i = e := by
  unfold getTlb setTlb
  cases op <;> simp

theorem updateTLBEntry_mem (flag : XCheckTLBFlag) (p a : Nat) (st : MachState) :
    (updateTLBEntry flag p a st).mem = st.mem := by
  unfold updateTLBEntry
  split
  · rfl
  · dsimp only
    split <;> rw [setTlb_mem]

theorem findPTE_eq_of (st1 st2 : MachState) (a : Nat) (hmem : st1.mem = st2.mem)
    (hsr : st1.sr = st2.sr) (hb : st1.pagetable_base = st2.pagetable_base)
    (hm : st1.pagetable_hashmask = st2.pagetable_hashmask) :
    findPTE st1 a = findPTE st2 a := by
  unfold findPTE ptegSearch ptegSlotAddr pte1Raw
  rw [hmem, hsr, hb, hm]

/-- The change bit of a PTE2 word with `PTE2_C` ored in is set. -/
theorem pteC_set (x : Nat) : pteC (x ||| PTE2_C) = 1 := by
  have h := Nat.testBit_or x PTE2_C 7
  have h80 : Nat.testBit PTE2_C 7 = true := by decide
  rw [h80, Bool.or_true] at h
  rw [Nat.testBit_to_div_mod] at h
  unfold pteC
  exact of_decide_eq_true h

/-- C5: a write access to a page whose hashed-page-table entry exists (the
walk finds the PTE at `slot`) and whose change bit is initially 0 — in the
backing entry, and in any TLB way currently caching the page — leaves,
after the translation completes, the change bit 1 both in the TLB-cached
PTE2 word (some way of the data-stream set now caches the page with C set)
and in the backing page-table-entry word in physical memory. -/
theorem c5_change_bit (st : MachState) (address slot : Nat)
    (hfind : findPTE st address = some slot)
    (hmemC : pteC (bswap32 (st.mem (slot + 4))) = 0)
    (htlb0 : (getTlb st false
        ((address >>> HW_PAGE_INDEX_SHIFT) &&& HW_PAGE_INDEX_MASK)).tag0 =
          address >>> HW_PAGE_INDEX_SHIFT →
      pteC (getTlb st false
        ((address >>> HW_PAGE_INDEX_SHIFT) &&& HW_PAGE_INDEX_MASK)).pte0 = 0)
    (htlb1 : (getTlb st false
        ((address >>> HW_PAGE_INDEX_SHIFT) &&& HW_PAGE_INDEX_MASK)).tag0 ≠
          address >>> HW_PAGE_INDEX_SHIFT →
      (getTlb st false
        ((address >>> HW_PAGE_INDEX_SHIFT) &&& HW_PAGE_INDEX_MASK)).tag1 =
          address >>> HW_PAGE_INDEX_SHIFT →
      pteC (getTlb st false
        ((address >>> HW_PAGE_INDEX_SHIFT) &&& HW_PAGE_INDEX_MASK)).pte1 = 0) :
    (translatePageAddress st address .write).1.valid = true ∧
    pteC (bswap32 ((translatePageAddress st address .write).2.mem (slot + 4))) = 1 ∧
    (((getTlb (translatePageAddress st address .write).2 false
        ((address >>> HW_PAGE_INDEX_SHIFT) &&& HW_PAGE_INDEX_MASK)).tag0 =
          address >>> HW_PAGE_INDEX_SHIFT ∧
      pteC (getTlb (translatePageAddress st address .write).2 false
        ((address >>> HW_PAGE_INDEX_SHIFT) &&& HW_PAGE_INDEX_MASK)).pte0 = 1) ∨
     ((getTlb (translatePageAddress st address .write).2 false
        ((address >>> HW_PAGE_INDEX_SHIFT) &&& HW_PAGE_INDEX_MASK)).tag1 =
          address >>> HW_PAGE_INDEX_SHIFT ∧
      pteC (getTlb (translatePageAddress st address .write).2 false
        ((address >>> HW_PAGE_INDEX_SHIFT) &&& HW_PAGE_INDEX_MASK)).pte1 = 1)) := by
  have hop : isOpcodeFlag .write = false := rfl
  set tag := address >>> HW_PAGE_INDEX_SHIFT with htag
  set idx := tag &&& HW_PAGE_INDEX_MASK with hidx
  set e := getTlb st false idx with he
  have hlt2a : ∀ x : Nat, x ||| PTE2_R ||| PTE2_C < 2 ^ 32 → True := fun _ _ => trivial
  -- the three TLB cases of the lookup
  by_cases h0 : e.tag0 = tag
  · -- way-0 hit with clear change bit: updateC path
    have hC0 : pteC e.pte0 = 0 := htlb0 h0
    have hlk : lookupTLBPageAddress .write st address =
        ⟨.updateC, 0, setTlb st false idx { e with pte0 := e.pte0 ||| PTE2_C }⟩ := by
      unfold lookupTLBPageAddress
      rw [hop] at *
      simp only [← htag, ← hidx, ← he, h0, hC0, if_pos, and_true, eq_self_iff_true, if_true]
    set st1 := setTlb st false idx { e with pte0 := e.pte0 ||| PTE2_C } with hst1
    have hfind1 : findPTE st1 address = some slot := by
      rw [findPTE_eq_of st1 st address (setTlb_mem _ _ _ _) (setTlb_sr _ _ _ _)
        (setTlb_base _ _ _ _) (setTlb_mask _ _ _ _)]
      exact hfind
    unfold translatePageAddress
    rw [hlk]
    dsimp only
    rw [if_neg (by simp), hfind1]
    dsimp only
    rw [if_neg (by simp), if_pos (by simp)]
    set pte2a := bswap32 (st1.mem (slot + 4)) ||| PTE2_R ||| PTE2_C with hpte2a
    have hlt : pte2a < 2 ^ 32 := by
      refine Nat.or_lt_two_pow (Nat.or_lt_two_pow (bswap32_lt _) ?_) ?_ <;> decide
    refine ⟨rfl, ?_, ?_⟩
    · show pteC (bswap32 (if slot + 4 = slot + 4 then bswap32 pte2a else st1.mem (slot + 4))) = 1
      rw [if_pos rfl, bswap32_bswap32 _ hlt, hpte2a]
      exact pteC_set _
    · have hgt : getTlb
          { st1 with mem := fun a => if a = slot + 4 then bswap32 pte2a else st1.mem a }
          false idx = { e with pte0 := e.pte0 ||| PTE2_C } := by
        have h1 : getTlb
            { st1 with mem := fun a => if a = slot + 4 then bswap32 pte2a else st1.mem a }
            false idx = getTlb st1 false idx := rfl
        rw [h1, hst1, getTlb_setTlb_same]
      rw [hgt]
      exact Or.inl ⟨h0, pteC_set _⟩
  · by_cases h1 : e.tag1 = tag
    · -- way-1 hit with clear change bit: updateC path
      have hC1 : pteC e.pte1 = 0 := htlb1 h0 h1
      have hlk : lookupTLBPageAddress .write st address =
          ⟨.updateC, 0, setTlb st false idx { e with pte1 := e.pte1 ||| PTE2_C }⟩ := by
        unfold lookupTLBPageAddress
        rw [hop] at *
        simp only [← htag, ← hidx, ← he, h0, h1, hC1, if_pos, and_true, eq_self_iff_true,
          if_true, if_false, ite_false]
      set st1 := setTlb st false idx { e with pte1 := e.pte1 ||| PTE2_C } with hst1
      have hfind1 : findPTE st1 address = some slot := by
        rw [findPTE_eq_of st1 st address (setTlb_mem _ _ _ _) (setTlb_sr _ _ _ _)
          (setTlb_base _ _ _ _) (setTlb_mask _ _ _ _)]
        exact hfind
      unfold translatePageAddress
      rw [hlk]
      dsimp only
      rw [if_neg (by simp), hfind1]
      dsimp only
      rw [if_neg (by simp), if_pos (by simp)]
      set pte2a := bswap32 (st1.mem (slot + 4)) ||| PTE2_R ||| PTE2_C with hpte2a
      have hlt : pte2a < 2 ^ 32 := by
        refine Nat.or_lt_two_pow (Nat.or_lt_two_pow (bswap32_lt _) ?_) ?_ <;> decide
      refine ⟨rfl, ?_, ?_⟩
      · show pteC (bswap32 (if slot + 4 = slot + 4 then bswap32 pte2a else st1.mem (slot + 4))) = 1
        rw [if_pos rfl, bswap32_bswap32 _ hlt, hpte2a]
        exact pteC_set _
      · have hgt : getTlb
            { st1 with mem := fun a => if a = slot + 4 then bswap32 pte2a else st1.mem a }
            false idx = { e with pte1 := e.pte1 ||| PTE2_C } := by
          have h1r : getTlb
              { st1 with mem := fun a => if a = slot + 4 then bswap32 pte2a else st1.mem a }
              false idx = getTlb st1 false idx := rfl
          rw [h1r, hst1, getTlb_setTlb_same]
        rw [hgt]
        exact Or.inr ⟨h1, pteC_set _⟩
    · -- full miss: walk plus TLB refill
      have hlk : lookupTLBPageAddress .write st address = ⟨.notFound, 0, st⟩ := by
        unfold lookupTLBPageAddress
        rw [hop] at *
        simp only [← htag, ← hidx, ← he, h0, h1, if_false, ite_false]
      unfold translatePageAddress
      rw [hlk]
      dsimp only
      rw [if_neg (by simp), hfind]
      dsimp only
      rw [if_pos (by simp), if_pos (by simp)]
      set pte2a := bswap32 (st.mem (slot + 4)) ||| PTE2_R ||| PTE2_C with hpte2a
      have hlt : pte2a < 2 ^ 32 := by
        refine Nat.or_lt_two_pow (Nat.or_lt_two_pow (bswap32_lt _) ?_) ?_ <;> decide
      set st2 : MachState :=
        { st with mem := fun a => if a = slot + 4 then bswap32 pte2a else st.mem a } with hst2
      have he2 : getTlb st2 false idx = e := rfl
      refine ⟨rfl, ?_, ?_⟩
      · rw [updateTLBEntry_mem]
        show pteC (bswap32 (if slot + 4 = slot + 4 then bswap32 pte2a else st.mem (slot + 4))) = 1
        rw [if_pos rfl, bswap32_bswap32 _ hlt, hpte2a]
        exact pteC_set _
      · unfold updateTLBEntry
        rw [if_neg (by simp)]
        dsimp only
        rw [hop]
        rw [show getTlb st2 false ((address >>> HW_PAGE_INDEX_SHIFT) &&& HW_PAGE_INDEX_MASK) = e
          from rfl]
        by_cases hrec : e.recent = 0 ∧ e.tag0 ≠ TLB_TAG_INVALID
        · rw [if_pos hrec, getTlb_setTlb_same]
          exact Or.inr ⟨rfl, by rw [hpte2a]; exact pteC_set _⟩
        · rw [if_neg hrec, getTlb_setTlb_same]
          exact Or.inl ⟨rfl, by rw [hpte2a]; exact pteC_set _⟩

/-- MMU-mode state whose hashed page table holds one valid PTE (for VSID 0,
page index 1, at group address 0x40) whose PTE2 word is zero (change bit
clear), with an empty TLB. -/
def c5State : MachState :=
  { msrDR := true, bMMU := true, sr := fun _ => 0, pagetable_base := 0,
    pagetable_hashmask := 0x3FF, dbat := fun _ => 0, ibat := fun _ => 0,
    tlbData := fun _ => tlbEntryInvalid, tlbInst := fun _ => tlbEntryInvalid,
    mem := fun a => if a = 0x40 then 0x80 else 0, dsisr := 0, dar := 0, exceptions := 0,
    panic := false }

/-- C5 witness: a write to `0x1000` in `c5State` walks to the PTE at slot
`0x40` and leaves the change bit set in both the backing word and the
TLB. -/
theorem c5_witness :
    (translatePageAddress c5State 0x1000 .write).1.valid = true ∧
    pteC (bswap32 ((translatePageAddress c5State 0x1000 .write).2.mem (0x40 + 4))) = 1 ∧
    (((getTlb (translatePageAddress c5State 0x1000 .write).2 false
        ((0x1000 >>> HW_PAGE_INDEX_SHIFT) &&& HW_PAGE_INDEX_MASK)).tag0 =
          0x1000 >>> HW_PAGE_INDEX_SHIFT ∧
      pteC (getTlb (translatePageAddress c5State 0x1000 .write).2 false
        ((0x1000 >>> HW_PAGE_INDEX_SHIFT) &&& HW_PAGE_INDEX_MASK)).pte0 = 1) ∨
     ((getTlb (translatePageAddress c5State 0x1000 .write).2 false
        ((0x1000 >>> HW_PAGE_INDEX_SHIFT) &&& HW_PAGE_INDEX_MASK)).tag1 =
          0x1000 >>> HW_PAGE_INDEX_SHIFT ∧
      pteC (getTlb (translatePageAddress c5State 0x1000 .write).2 false
        ((0x1000 >>> HW_PAGE_INDEX_SHIFT) &&& HW_PAGE_INDEX_MASK)).pte1 = 1)) :=
  c5_change_bit c5State 0x1000 0x40 (by decide) (by decide) (by decide) (by decide)

/-! ## Claim C7: idempotent invalidation

Structural facts: destroying blocks touches `blocks`, `links_to`, the
start-address index and the panic flags, but neither `block_map` nor the
granule bitset; the second identical `InvalidateICache` call therefore sees
either a cleared fast-path bit or an already-erased map segment. -/

def keyLtP (a b : (Nat × Nat) × Nat) : Prop := keyLt a.1 b.1 = true

theorem keyLt_true_iff (k1 k2 : Nat × Nat) :
    keyLt k1 k2 = true ↔ (k1.1 < k2.1 ∨ (k1.1 = k2.1 ∧ k1.2 < k2.2)) := by
  unfold keyLt
  simp

theorem foldl_proj_invariant {α β : Type} (proj : JitCacheState → β)
    (g : JitCacheState → α → JitCacheState)
    (hg : ∀ st x, proj (g st x) = proj st) :
    ∀ (l : List α) (st : JitCacheState), proj (l.foldl g st) = proj st := by
  intro l
  induction l with
  | nil => intro st; rfl
  | cons x xs ih =>
      intro st
      rw [List.foldl_cons, ih, hg]

theorem updBlock_block_map (st : JitCacheState) (bn : Nat) (f : JitBlock → JitBlock) :
    (updBlock st bn f).block_map = st.block_map := by
  unfold updBlock
  split <;> rfl

theorem updBlock_valid_block (st : JitCacheState) (bn : Nat) (f : JitBlock → JitBlock) :
    (updBlock st bn f).valid_block = st.valid_block := by
  unfold updBlock
  split <;> rfl

theorem unlinkBlock_block_map (st : JitCacheState) (i : Nat) :
    (unlinkBlock st i).block_map = st.block_map := by
  unfold unlinkBlock
  split
  · rfl
  · show (((_ : List Nat).foldl _ st).block_map) = st.block_map
    exact foldl_proj_invariant (fun s => s.block_map) _
      (fun st2 x => updBlock_block_map st2 x _) _ st

theorem unlinkBlock_valid_block (st : JitCacheState) (i : Nat) :
    (unlinkBlock st i).valid_block = st.valid_block := by
  unfold unlinkBlock
  split
  · rfl
  · show (((_ : List Nat).foldl _ st).valid_block) = st.valid_block
    exact foldl_proj_invariant (fun s => s.valid_block) _
      (fun st2 x => updBlock_valid_block st2 x _) _ st

theorem destroyBlock_block_map (st : JitCacheState) (bn : Int) (inval : Bool) :
    (destroyBlock st bn inval).block_map = st.block_map := by
  unfold destroyBlock
  split
  · rfl
  · split
    · rfl
    · split
      · split <;> rfl
      · dsimp only
        split
        · show (unlinkBlock (updBlock st _ _) _).block_map = st.block_map
          rw [unlinkBlock_block_map, updBlock_block_map]
        · show (unlinkBlock (updBlock st _ _) _).block_map = st.block_map
          rw [unlinkBlock_block_map, updBlock_block_map]

theorem destroyBlock_valid_block (st : JitCacheState) (bn : Int) (inval : Bool) :
    (destroyBlock st bn inval).valid_block = st.valid_block := by
  unfold destroyBlock
  split
  · rfl
  · split
    · rfl
    · split
      · split <;> rfl
      · dsimp only
        split
        · show (unlinkBlock (updBlock st _ _) _).valid_block = st.valid_block
          rw [unlinkBlock_valid_block, updBlock_valid_block]
        · show (unlinkBlock (updBlock st _ _) _).valid_block = st.valid_block
          rw [unlinkBlock_valid_block, updBlock_valid_block]

theorem invFastPathState_block_map (st : JitCacheState) (address length : Nat) :
    (invFastPathState st address length).block_map = st.block_map := by
  unfold invFastPathState
  split <;> rfl

theorem invFastPathState_panic (st : JitCacheState) (address length : Nat) :
    (invFastPathState st address length).panic_invalid_destroy = st.panic_invalid_destroy := by
  unfold invFastPathState
  split <;> rfl

/-- The map left by `InvalidateICache`: the scanned segment is erased when
the destroy path runs. -/
theorem invalidateICache_block_map (st : JitCacheState) (address length : Nat) ( forced : Bool) :
    (invalidateICache st address length forced).block_map =
      if invReachesDestroy st address length then
        (st.block_map.takeWhile fun e => keyLt e.1 (address, 0)) ++
          ((st.block_map.dropWhile fun e => keyLt e.1 (address, 0)).drop
            (invScanSeg st.block_map address length).length)
      else st.block_map := by
  unfold invalidateICache
  dsimp only
  split
  · simp only [invFastPathState_block_map]
  · exact invFastPathState_block_map st address length

theorem invalidateICache_valid_block (st : JitCacheState) (address length : Nat)
    ( forced : Bool) :
    (invalidateICache st address length forced).valid_block =
      (invFastPathState st address length).valid_block := by
  unfold invalidateICache
  dsimp only
  split
  · exact foldl_proj_invariant (fun s => s.valid_block) _
      (fun st2 x => destroyBlock_valid_block st2 _ _) _ _
  · rfl

/-! List facts used for the second-call analysis. -/

theorem takeWhile_all {α : Type} (p : α → Bool) (l : List α) :
    ∀ x ∈ l.takeWhile p, p x = true := by
  induction l with
  | nil => intro x hx; cases hx
  | cons a l ih =>
      intro x hx
      rw [List.takeWhile_cons] at hx
      by_cases hp : p a
      · rw [if_pos hp] at hx
        rcases List.mem_cons.mp hx with h | h
        · rw [h]; exact hp
        · exact ih x h
      · rw [if_neg hp] at hx
        cases hx

theorem dropWhile_append_all {α : Type} (p : α → Bool) (l1 l2 : List α)
    (h : ∀ x ∈ l1, p x = true) :
    (l1 ++ l2).dropWhile p = l2.dropWhile p := by
  induction l1 with
  | nil => rfl
  | cons a l ih =>
      rw [List.cons_append, List.dropWhile_cons, if_pos (h a (List.mem_cons_self a l))]
      exact ih fun x hx => h x (List.mem_cons_of_mem a hx)

theorem drop_length_takeWhile {α : Type} (p : α → Bool) (l : List α) :
    l.drop (l.takeWhile p).length = l.dropWhile p := by
  induction l with
  | nil => rfl
  | cons a l ih =>
      rw [List.takeWhile_cons, List.dropWhile_cons]
      by_cases hp : p a
      · rw [if_pos hp, if_pos hp]
        exact ih
      · rw [if_neg hp, if_neg hp]
        rfl

theorem dropWhile_shape {α : Type} (p : α → Bool) (l : List α) :
    l.dropWhile p = [] ∨ ∃ x xs, l.dropWhile p = x :: xs ∧ p x = false := by
  induction l with
  | nil => exact Or.inl rfl
  | cons a l ih =>
      rw [List.dropWhile_cons]
      by_cases hp : p a
      · rw [if_pos hp]
        exact ih
      · rw [if_neg hp]
        exact Or.inr ⟨a, l, rfl, by simpa using hp⟩

theorem mem_of_mem_dropWhile {α : Type} (p : α → Bool) (l : List α) (x : α)
    (hx : x ∈ l.dropWhile p) : x ∈ l := by
  induction l with
  | nil => cases hx
  | cons a l ih =>
      rw [List.dropWhile_cons] at hx
      by_cases hp : p a
      · rw [if_pos hp] at hx
        exact List.mem_cons_of_mem a (ih hx)
      · rw [if_neg hp] at hx
        exact hx

/-- Below a sorted map's lower bound everything has been dropped: every
entry remaining after `dropWhile (key < (address, 0))` fails that
predicate. -/
theorem dropWhile_all_not_lt (m : List ((Nat × Nat) × Nat)) (address : Nat)
    (hs : m.Pairwise keyLtP) :
    ∀ r ∈ m.dropWhile fun e => keyLt e.1 (address, 0), keyLt r.1 (address, 0) = false := by
  induction m with
  | nil => intro r hr; cases hr
  | cons a l ih =>
      rw [List.pairwise_cons] at hs
      intro r hr
      rw [List.dropWhile_cons] at hr
      by_cases hp : keyLt a.1 (address, 0) = true
      · rw [if_pos hp] at hr
        exact ih hs.2 r hr
      · rw [if_neg hp] at hr
        rcases List.mem_cons.mp hr with h | h
        · subst h
          simpa using hp
        · have hab : keyLt a.1 r.1 = true := hs.1 r h
          rw [keyLt_true_iff] at hab
          have hna : ¬ (a.1.1 < address ∨ (a.1.1 = address ∧ a.1.2 < 0)) := by
            intro hcon
            exact hp ((keyLt_true_iff _ _).mpr hcon)
          have hnr : ¬ (r.1.1 < address ∨ (r.1.1 = address ∧ r.1.2 < 0)) := by omega
          by_cases hres : keyLt r.1 (address, 0) = true
          · exact absurd ((keyLt_true_iff _ _).mp hres) hnr
          · simpa using hres

/-- After one `InvalidateICache` erased its scan segment from a sorted map,
an identical scan over the remaining map is empty. -/
theorem invScanSeg_erased (m : List ((Nat × Nat) × Nat)) (address length : Nat)
    (hs : m.Pairwise keyLtP) :
    invScanSeg ((m.takeWhile fun e => keyLt e.1 (address, 0)) ++
      ((m.dropWhile fun e => keyLt e.1 (address, 0)).drop
        (invScanSeg m address length).length)) address length = [] := by
  unfold invScanSeg
  rw [drop_length_takeWhile]
  rw [dropWhile_append_all _ _ _ (takeWhile_all _ _)]
  rcases dropWhile_shape (fun e => decide (e.1.2 < (address + length) % 2 ^ 32))
      (m.dropWhile fun e => keyLt e.1 (address, 0)) with h | ⟨x, xs, hx, hqx⟩
  · rw [h]
    rfl
  · rw [hx]
    have hxm : x ∈ m.dropWhile fun e => keyLt e.1 (address, 0) :=
      mem_of_mem_dropWhile (fun e => decide (e.1.2 < (address + length) % 2 ^ 32)) _ x
        (by rw [hx]; exact List.mem_cons_self x xs)
    have hpx : keyLt x.1 (address, 0) = false := dropWhile_all_not_lt m address hs x hxm
    rw [List.dropWhile_cons, if_neg (by simp [hpx]), List.takeWhile_cons,
      if_neg (by simpa using hqx)]

/-- C7: calling `InvalidateICache` twice in a row with the same arguments is
safe — given the ordered index is sorted, the second call calls
`DestroyBlock` on no block and cannot raise the double-destroy
("Invalidating invalid block") report, on both the length-32 fast path and
the general range path. -/
theorem c7_invalidate_idempotent (st : JitCacheState) (address length : Nat) ( forced : Bool)
    (hs : st.block_map.Pairwise keyLtP) :
    invDestroyedBlocks (invalidateICache st address length forced) address length = [] ∧
    (invalidateICache (invalidateICache st address length forced) address length
        forced).panic_invalid_destroy =
      (invalidateICache st address length forced).panic_invalid_destroy := by
  set st1 := invalidateICache st address length forced with hst1
  have hmap1 : st1.block_map =
      if invReachesDestroy st address length then
        (st.block_map.takeWhile fun e => keyLt e.1 (address, 0)) ++
          ((st.block_map.dropWhile fun e => keyLt e.1 (address, 0)).drop
            (invScanSeg st.block_map address length).length)
      else st.block_map := invalidateICache_block_map st address length forced
  have hseg1 : invScanSeg st1.block_map address length = [] ∨
      invReachesDestroy st1 address length = false := by
    by_cases hd : invReachesDestroy st address length
    · left
      rw [hmap1, if_pos hd]
      exact invScanSeg_erased st.block_map address length hs
    · right
      unfold invReachesDestroy at hd ⊢
      by_cases hl : length = 32
      · rw [if_pos hl] at hd ⊢
        have hv : st1.valid_block = (invFastPathState st address length).valid_block :=
          invalidateICache_valid_block st address length forced
        rw [hv]
        unfold invFastPathState
        rw [if_neg (by simp_all)]
        simpa using hd
      · rw [if_neg hl] at hd
        exact absurd rfl hd
  have hdest : invDestroyedBlocks st1 address length = [] := by
    unfold invDestroyedBlocks
    rcases hseg1 with h | h
    · split
      · rw [h]
        rfl
      · rfl
    · rw [h]
      rfl
  refine ⟨hdest, ?_⟩
  have hseg0 : invReachesDestroy st1 address length = true →
      invScanSeg st1.block_map address length = [] := by
    intro hr
    rcases hseg1 with h | h
    · exact h
    · rw [hr] at h
      cases h
  unfold invalidateICache
  dsimp only
  split
  · have hseg := hseg0 (by assumption)
    rw [show invScanSeg (invFastPathState st1 address length).block_map address length =
        invScanSeg st1.block_map address length from by rw [invFastPathState_block_map]]
    rw [hseg]
    show (invFastPathState st1 address length).panic_invalid_destroy = _
    rw [invFastPathState_panic]
  · show (invFastPathState st1 address length).panic_invalid_destroy = _
    rw [invFastPathState_panic]

/-- Cache with one finalized block at `[0x1000, 0x1020)`. -/
def c7State : JitCacheState :=
  { blocks := [⟨0x1000, 8, false, []⟩], links_to := [],
    block_map := [((0x101F, 0x1000), 0)],
    valid_block := fun g => g = 0x80,
    physPages := fun p => p = 0,
    physVal := fun p s => if p = 0 ∧ s = 0x400 then 0 else 0xFFFFFFFF,
    panic_invalid_destroy := false, panic_other := false }

/-- C7 witness: invalidating `[0x1000, 0x1040)` twice over a one-block cache
destroys nothing on the second call and raises no double-destroy report. -/
theorem c7_witness :
    invDestroyedBlocks (invalidateICache c7State 0x1000 64 false) 0x1000 64 = [] ∧
    (invalidateICache (invalidateICache c7State 0x1000 64 false) 0x1000 64
        false).panic_invalid_destroy =
      (invalidateICache c7State 0x1000 64 false).panic_invalid_destroy :=
  c7_invalidate_idempotent c7State 0x1000 64 false (List.pairwise_singleton _ _)

/-! ## Claim C1: range invalidation -/

theorem getElem?_updBlock (st : JitCacheState) (bn : Nat) (f : JitBlock → JitBlock) (n : Nat) :
    (updBlock st bn f).blocks[n]? =
      if n = bn then (st.blocks[bn]?).map f else st.blocks[n]? := by
  unfold updBlock
  cases hb : st.blocks[bn]? with
  | none =>
      by_cases h : n = bn
      · subst h
        simp [hb]
      · simp [h]
  | some b =>
      by_cases h : n = bn
      · subst h
        have hlt : n < st.blocks.length := by
          rcases List.getElem?_eq_some_iff.mp hb with ⟨hlen, _⟩
          exact hlen
        simp [List.getElem?_set, hlt, hb]
      · rw [if_neg h]
        show (st.blocks.set bn (f b))[n]? = st.blocks[n]?
        exact List.getElem?_set_ne fun hc => h hc.symm

theorem updBlock_length (st : JitCacheState) (bn : Nat) (f : JitBlock → JitBlock) :
    (updBlock st bn f).blocks.length = st.blocks.length := by
  unfold updBlock
  split
  · rfl
  · simp

/-- Which block a slot holds after `unlinkBlock`: the `invalid` flag and the
start address of every slot are untouched (only exit `linkStatus` flags
change). -/
theorem unlinkBlock_getElem_sig (st : JitCacheState) (i n : Nat) :
    ((unlinkBlock st i).blocks[n]?).map (fun b => (b.originalAddress, b.invalid)) =
      (st.blocks[n]?).map (fun b => (b.originalAddress, b.invalid)) := by
  unfold unlinkBlock
  split
  · rfl
  · show ((((_ : List Nat).foldl _ st).blocks[n]?).map _) = _
    refine congrFun (foldl_proj_invariant
      (fun s => fun m => (s.blocks[m]?).map fun b => (b.originalAddress, b.invalid)) _ ?_ _ st) n
    intro st2 x
    funext m
    dsimp only
    rw [getElem?_updBlock]
    split
    · rename_i hm
      rw [hm]
      cases st2.blocks[x]? <;> rfl
    · rfl

theorem unlinkBlock_length (st : JitCacheState) (i : Nat) :
    (unlinkBlock st i).blocks.length = st.blocks.length := by
  unfold unlinkBlock
  split
  · rfl
  · show (((_ : List Nat).foldl _ st).blocks.length) = _
    exact foldl_proj_invariant (fun s => s.blocks.length) _
      (fun st2 x => updBlock_length st2 x _) _ st

theorem destroyBlock_getElem_sig (st : JitCacheState) (bn : Int) (inval : Bool) (n : Nat) :
    ((destroyBlock st bn inval).blocks[n]?).map (fun b => (b.originalAddress, b.invalid)) =
      if bn = (n : Int) ∧ (n : Int) < st.blocks.length then
        (st.blocks[n]?).map fun b => (b.originalAddress, true)
      else (st.blocks[n]?).map fun b => (b.originalAddress, b.invalid) := by
  unfold destroyBlock
  split
  · rename_i hout
    rw [if_neg (by omega)]
  · rename_i hin
    cases hb : st.blocks[bn.toNat]? with
    | none =>
        exfalso
        rcases List.getElem?_eq_none_iff.mp hb with hlen
        omega
    | some b =>
        dsimp only
        by_cases hn : bn = (n : Int) ∧ (n : Int) < st.blocks.length
        · have hnn : n = bn.toNat := by omega
          subst hnn
          rw [if_pos hn]
          split
          · rename_i hinv
            split
            · simp [hb, hinv]
            · simp [hb, hinv]
          · rename_i hinv
            have hchain :
                ((unlinkBlock (updBlock st bn.toNat fun bb => { bb with invalid := true })
                  bn.toNat).blocks[bn.toNat]?).map (fun b => (b.originalAddress, b.invalid)) =
                  (st.blocks[bn.toNat]?).map fun b => (b.originalAddress, true) := by
              rw [unlinkBlock_getElem_sig, getElem?_updBlock, if_pos rfl, hb]
              rfl
            split
            · exact hchain
            · exact hchain
        · rw [if_neg hn]
          split
          · split
            · rfl
            · rfl
          · have hne : n ≠ bn.toNat := by omega
            have hchain :
                ((unlinkBlock (updBlock st bn.toNat fun bb => { bb with invalid := true })
                  bn.toNat).blocks[n]?).map (fun b => (b.originalAddress, b.invalid)) =
                  (st.blocks[n]?).map fun b => (b.originalAddress, b.invalid) := by
              rw [unlinkBlock_getElem_sig, getElem?_updBlock, if_neg hne]
            split
            · exact hchain
            · exact hchain

theorem destroyBlock_length (st : JitCacheState) (bn : Int) (inval : Bool) :
    (destroyBlock st bn inval).blocks.length = st.blocks.length := by
  unfold destroyBlock
  split
  · rfl
  · split
    · rfl
    · split
      · split <;> rfl
      · dsimp only
        split
        · show (unlinkBlock (updBlock st _ _) _).blocks.length = _
          rw [unlinkBlock_length, updBlock_length]
        · show (unlinkBlock (updBlock st _ _) _).blocks.length = _
          rw [unlinkBlock_length, updBlock_length]

theorem destroyBlock_sig_mono (st : JitCacheState) (bn : Int) (inval : Bool) (n : Nat) (a : Nat)
    (h : (st.blocks[n]?).map (fun b => (b.originalAddress, b.invalid)) = some (a, true)) :
    ((destroyBlock st bn inval).blocks[n]?).map (fun b => (b.originalAddress, b.invalid)) =
      some (a, true) := by
  rw [destroyBlock_getElem_sig]
  split
  · cases hob : st.blocks[n]? with
    | none =>
        rw [hob] at h
        simp at h
    | some b =>
        rw [hob] at h
        simp only [Option.map_some', Option.some.injEq, Prod.mk.injEq] at h ⊢
        exact ⟨h.1, trivial⟩
  · exact h

theorem foldl_destroy_sig_mono (l : List ((Nat × Nat) × Nat)) (st0 : JitCacheState)
    (n : Nat) (a : Nat)
    (h : (st0.blocks[n]?).map (fun b => (b.originalAddress, b.invalid)) = some (a, true)) :
    (((l.foldl (fun acc x => destroyBlock acc (u32ToInt x.2) true) st0).blocks[n]?).map
      (fun b => (b.originalAddress, b.invalid))) = some (a, true) := by
  induction l generalizing st0 with
  | nil => exact h
  | cons x xs ih =>
      rw [List.foldl_cons]
      exact ih _ (destroyBlock_sig_mono _ _ _ _ _ h)

theorem foldl_destroy_length (l : List ((Nat × Nat) × Nat)) (st0 : JitCacheState) :
    ((l.foldl (fun acc x => destroyBlock acc (u32ToInt x.2) true) st0).blocks.length) =
      st0.blocks.length :=
  foldl_proj_invariant (fun s => s.blocks.length) _
    (fun st2 x => destroyBlock_length st2 _ _) l st0

theorem destroyBlock_sets_invalid (st : JitCacheState) (v : Nat) (hv : v < st.blocks.length)
    (h31 : st.blocks.length ≤ 2 ^ 31) :
    ∃ a, ((destroyBlock st (u32ToInt v) true).blocks[v]?).map
      (fun b => (b.originalAddress, b.invalid)) = some (a, true) := by
  have hcast : u32ToInt v = (v : Int) := by
    unfold u32ToInt
    rw [if_pos (by omega)]
  rw [destroyBlock_getElem_sig, hcast, if_pos ⟨rfl, by exact_mod_cast hv⟩]
  cases hob : st.blocks[v]? with
  | none =>
      have := List.getElem?_eq_none_iff.mp hob
      omega
  | some b => exact ⟨b.originalAddress, rfl⟩

theorem foldl_destroy_sets (seg : List ((Nat × Nat) × Nat)) (st0 : JitCacheState)
    (e : (Nat × Nat) × Nat) (he : e ∈ seg) (hlt : e.2 < st0.blocks.length)
    (h31 : st0.blocks.length ≤ 2 ^ 31) :
    ∃ a, (((seg.foldl (fun acc x => destroyBlock acc (u32ToInt x.2) true) st0).blocks[e.2]?).map
      (fun b => (b.originalAddress, b.invalid))) = some (a, true) := by
  induction seg generalizing st0 with
  | nil => cases he
  | cons x xs ih =>
      rw [List.foldl_cons]
      rcases List.mem_cons.mp he with heq2 | hxs
      · subst heq2
        obtain ⟨a, ha⟩ := destroyBlock_sets_invalid st0 e.2 hlt h31
        exact ⟨a, foldl_destroy_sig_mono xs _ e.2 a ha⟩
      · exact ih _ hxs (by rw [destroyBlock_length]; exact hlt)
          (by rw [destroyBlock_length]; exact h31)

theorem invFastPathState_blocks (st : JitCacheState) (address length : Nat) :
    (invFastPathState st address length).blocks = st.blocks := by
  unfold invFastPathState
  split <;> rfl

theorem invalidateICache_blocks (st : JitCacheState) (address length : Nat) ( forced : Bool) :
    (invalidateICache st address length forced).blocks =
      if invReachesDestroy st address length then
        ((invScanSeg st.block_map address length).foldl
          (fun acc x => destroyBlock acc (u32ToInt x.2) true)
          (invFastPathState st address length)).blocks
      else st.blocks := by
  unfold invalidateICache
  dsimp only
  split
  · simp only [invFastPathState_block_map]
  · exact invFastPathState_blocks st address length

/-- An element of a sorted list belongs to its `takeWhile` prefix as long as
every earlier element also satisfies the predicate. -/
theorem mem_takeWhile_of_pairwise {α : Type} {R : α → α → Prop} {q : α → Bool} {l : List α}
    (hl : l.Pairwise R) {x : α} (hx : x ∈ l) (hqx : q x = true)
    (hblock : ∀ c ∈ l, R c x → q c = true) :
    x ∈ l.takeWhile q := by
  induction l with
  | nil => cases hx
  | cons a t ih =>
      rw [List.pairwise_cons] at hl
      rcases List.mem_cons.mp hx with heq2 | hx2
      · subst heq2
        rw [List.takeWhile_cons, if_pos hqx]
        exact List.mem_cons_self _ _
      · have hqa : q a = true := hblock a (List.mem_cons_self a t) (hl.1 x hx2)
        rw [List.takeWhile_cons, if_pos hqa]
        exact List.mem_cons_of_mem a
          (ih hl.2 hx2 fun c hc hr => hblock c (List.mem_cons_of_mem a hc) hr)

/-- C1 (amended): provided the ordered index is sorted, every indexed range
is nonempty (`start <= end`), any two overlapping indexed blocks end at the
same address (the assumption the source states in a comment), and — when
`length` is exactly 32 — the fast-path granule bit is set, the call destroys
every finalized block whose guest range overlaps
`[address, address+length)`; and the granule bits are cleared only by the
length-32 fast path: the general path leaves the bitset unchanged. -/
theorem c1_invalidate_overlap (st : JitCacheState) (address length : Nat) ( forced : Bool)
    (hs : st.block_map.Pairwise keyLtP)
    (hwf : ∀ e ∈ st.block_map, e.1.2 ≤ e.1.1)
    (hlen : address + length < 2 ^ 32)
    (h31 : st.blocks.length ≤ 2 ^ 31)
    (heq : ∀ e1 ∈ st.block_map, ∀ e2 ∈ st.block_map,
      e1.1.2 ≤ e2.1.1 → e2.1.2 ≤ e1.1.1 → e1.1.1 = e2.1.1)
    (hfast : length = 32 → st.valid_block (address / 32) = true) :
    (∀ e ∈ st.block_map, address ≤ e.1.1 → e.1.2 < address + length →
      e.2 ∈ invDestroyedBlocks st address length ∧
      (e.2 < st.blocks.length →
        ∃ b, (invalidateICache st address length forced).blocks[e.2]? = some b ∧
          b.invalid = true)) ∧
    (length ≠ 32 →
      (invalidateICache st address length forced).valid_block = st.valid_block) := by
  have hreach : invReachesDestroy st address length = true := by
    unfold invReachesDestroy
    split
    · exact hfast (by assumption)
    · rfl
  constructor
  · intro e he hov1 hov2
    -- e survives the lower-bound drop
    have htail : e ∈ st.block_map.dropWhile fun x => keyLt x.1 (address, 0) := by
      have hsplit := List.takeWhile_append_dropWhile
        (p := fun x : (Nat × Nat) × Nat => keyLt x.1 (address, 0)) (l := st.block_map)
      have he2 : e ∈ (st.block_map.takeWhile fun x => keyLt x.1 (address, 0)) ++
          (st.block_map.dropWhile fun x => keyLt x.1 (address, 0)) := by
        rw [hsplit]
        exact he
      rcases List.mem_append.mp he2 with h | h
      · have := takeWhile_all _ _ e h
        rw [keyLt_true_iff] at this
        omega
      · exact h
    -- and is reached by the scan before any entry with start >= address+length
    have hseg : e ∈ invScanSeg st.block_map address length := by
      unfold invScanSeg
      have htailpw : (st.block_map.dropWhile fun x => keyLt x.1 (address, 0)).Pairwise keyLtP :=
        List.Pairwise.sublist (List.dropWhile_sublist _) hs
      refine mem_takeWhile_of_pairwise htailpw htail ?_ ?_
      · simp only [decide_eq_true_eq]
        rw [Nat.mod_eq_of_lt hlen]
        exact hov2
      · intro c hc hrel
        by_contra hqc
        have hcm : c ∈ st.block_map := mem_of_mem_dropWhile _ _ _ hc
        have hcge : keyLt c.1 (address, 0) = false :=
          dropWhile_all_not_lt st.block_map address hs c hc
        have hcge2 : address ≤ c.1.1 := by
          by_contra hlt2
          have : keyLt c.1 (address, 0) = true := by
            rw [keyLt_true_iff]
            omega
          rw [this] at hcge
          cases hcge
        have hcs : address + length ≤ c.1.2 := by
          simp only [decide_eq_true_eq] at hqc
          rw [Nat.mod_eq_of_lt hlen] at hqc
          omega
        rw [keyLtP, keyLt_true_iff] at hrel
        have hcwf : c.1.2 ≤ c.1.1 := hwf c hcm
        have hc1lt : c.1.1 < e.1.1 := by omega
        have hends := heq c hcm e he (by omega) (by omega)
        omega
    refine ⟨?_, ?_⟩
    · unfold invDestroyedBlocks
      rw [if_pos hreach]
      exact List.mem_map_of_mem Prod.snd hseg
    · intro hlt
      rw [invalidateICache_blocks, if_pos hreach]
      obtain ⟨a, ha⟩ := foldl_destroy_sets (invScanSeg st.block_map address length)
        (invFastPathState st address length) e hseg
        (by rw [invFastPathState_blocks]; exact hlt)
        (by rw [invFastPathState_blocks]; exact h31)
      cases hob : ((invScanSeg st.block_map address length).foldl
          (fun acc x => destroyBlock acc (u32ToInt x.2) true)
          (invFastPathState st address length)).blocks[e.2]? with
      | none => rw [hob] at ha; cases ha
      | some b =>
          rw [hob] at ha
          simp only [Option.map_some', Option.some.injEq, Prod.mk.injEq] at ha
          exact ⟨b, rfl, ha.2⟩
  · intro hne
    rw [invalidateICache_valid_block]
    unfold invFastPathState
    rw [if_neg fun hcon => hne hcon.1]

/-- Cache with two overlapping finalized blocks with different end
addresses: block 0 covers `[0x1000, 0x3000)` (end key `0x2FFF`), block 1
covers `[0x2000, 0x2020)` (end key `0x201F`); the ordered index lists block
1 first. -/
def c1State : JitCacheState :=
  { blocks := [⟨0x1000, 0x800, false, []⟩, ⟨0x2000, 8, false, []⟩],
    links_to := [],
    block_map := [((0x201F, 0x2000), 1), ((0x2FFF, 0x1000), 0)],
    valid_block := fun g => 0x80 ≤ g ∧ g ≤ 0x17F,
    physPages := fun p => p = 0,
    physVal := fun p s =>
      if p = 0 ∧ s = 0x400 then 0 else if p = 0 ∧ s = 0x800 then 1 else 0xFFFFFFFF,
    panic_invalid_destroy := false, panic_other := false }

/-- Cache with a single finalized block covering `[0x1000, 0x1020)`. -/
def c1StateB : JitCacheState :=
  { blocks := [⟨0x1000, 8, false, []⟩], links_to := [],
    block_map := [((0x101F, 0x1000), 0)],
    valid_block := fun g => g = 0x80,
    physPages := fun p => p = 0,
    physVal := fun p s => if p = 0 ∧ s = 0x400 then 0 else 0xFFFFFFFF,
    panic_invalid_destroy := false, panic_other := false }

/-- C1 counterexample.  First half: invalidating `[0x1010, 0x1014)` over
`c1State` destroys nothing at all — the lower-bound scan starts at block 1
(end `0x201F >= 0x1010`), sees its start `0x2000 >= 0x1014` and stops, never
reaching block 0 even though block 0's range `[0x1000, 0x2FFF]` overlaps the
invalidated range; block 0 stays valid.  Second half: a general-path call
(length 64) that does destroy its block leaves the block's granule bit set —
only the length-32 fast path ever clears a granule bit. -/
theorem c1_missed_overlap_counterexample :
    (invDestroyedBlocks c1State 0x1010 4 = [] ∧
     (0x1000 ≤ 0x1013 ∧ 0x1010 ≤ 0x2FFF) ∧
     (invalidateICache c1State 0x1010 4 false).blocks[0]? =
       some ⟨0x1000, 0x800, false, []⟩) ∧
    ((invalidateICache c1StateB 0x1000 64 false).blocks[0]?.map JitBlock.invalid =
       some true ∧
     (invalidateICache c1StateB 0x1000 64 false).valid_block 0x80 = true) := by
  decide

/-- C1 witness: over the single-block cache, invalidating `[0x1000, 0x1040)`
destroys the overlapping block 0. -/
theorem c1_witness :
    0 ∈ invDestroyedBlocks c1StateB 0x1000 64 ∧
    ∃ b, (invalidateICache c1StateB 0x1000 64 false).blocks[0]? = some b ∧
      b.invalid = true := by
  have h := (c1_invalidate_overlap c1StateB 0x1000 64 false
    (List.pairwise_singleton _ _) (by decide) (by decide) (by decide) (by decide)
    (by decide)).1 ((0x101F, 0x1000), 0) (by decide) (by decide) (by decide)
  exact ⟨h.1, h.2 (by decide)⟩

/-! ## Claim C8: uniqueness of valid start addresses -/

/-- The cache operations of the claim, plus the code generator's field
writes between `AllocateBlock` and `FinalizeBlock`. -/
inductive CacheOp
  | alloc (em : Nat)
  | payload (bn : Nat) (size : Nat) (ld : List LinkData)
  | finalize (bn : Nat) (link : Bool)
  | destroy (bn : Int) (inval : Bool)
  | invalidate (address length : Nat) ( forced : Bool)
  | clearOp

def execOp (st : JitCacheState) : CacheOp → JitCacheState
  | .alloc em => allocateBlock st em
  | .payload bn size ld => setBlockPayload st bn size ld
  | .finalize bn link => finalizeBlock st bn link
  | .destroy bn inval => destroyBlock st bn inval
  | .invalidate a l f => invalidateICache st a l f
  | .clearOp => clearCache st

/-- The discipline real callers follow: a block is only allocated at an
address no live block claims (the dispatcher compiles only on a lookup
miss). -/
def allocGuard (st : JitCacheState) : CacheOp → Bool
  | .alloc em => st.blocks.all fun b => b.invalid || b.originalAddress ≠ em
  | _ => true

/-- States reachable from the fresh cache by guarded operation sequences. -/
inductive GuardedReach : JitCacheState → Prop
  | init : GuardedReach emptyCache
  | step (st : JitCacheState) (op : CacheOp) : GuardedReach st → allocGuard st op = true →
      GuardedReach (execOp st op)

/-- At most one non-invalid block claims a given guest start address. -/
def UniqueValidStart (st : JitCacheState) : Prop :=
  ∀ i j : Nat, ∀ bi bj : JitBlock, st.blocks[i]? = some bi → st.blocks[j]? = some bj →
    bi.invalid = false → bj.invalid = false →
    bi.originalAddress = bj.originalAddress → i = j

/-- Simulation used for the preservation proof: after the operation, every
slot holds a block with the same start address whose validity implies prior
validity (operations never resurrect or re-address a block). -/
def SigRefines (st2 st : JitCacheState) : Prop :=
  ∀ (n : Nat) (b2 : JitBlock), st2.blocks[n]? = some b2 →
    ∃ b : JitBlock, st.blocks[n]? = some b ∧
      b2.originalAddress = b.originalAddress ∧ (b2.invalid = false → b.invalid = false)

theorem sigRefines_of_sig_eq {st2 st : JitCacheState}
    (h : ∀ n : Nat, (st2.blocks[n]?).map (fun b => (b.originalAddress, b.invalid)) =
      (st.blocks[n]?).map fun b => (b.originalAddress, b.invalid)) :
    SigRefines st2 st := by
  intro n b2 hb2
  have hn := h n
  rw [hb2] at hn
  cases hob : st.blocks[n]? with
  | none =>
      rw [hob] at hn
      cases hn
  | some b =>
      rw [hob] at hn
      simp only [Option.map_some', Option.some.injEq, Prod.mk.injEq] at hn
      exact ⟨b, rfl, hn.1, fun hf => by rw [← hn.2]; exact hf⟩

theorem sigRefines_refl (st : JitCacheState) : SigRefines st st :=
  fun n b2 hb2 => ⟨b2, hb2, rfl, fun h => h⟩

theorem sigRefines_trans {st3 st2 st : JitCacheState} (h32 : SigRefines st3 st2)
    (h21 : SigRefines st2 st) : SigRefines st3 st := by
  intro n b3 hb3
  obtain ⟨b2, hb2, ha32, hv32⟩ := h32 n b3 hb3
  obtain ⟨b, hb, ha21, hv21⟩ := h21 n b2 hb2
  exact ⟨b, hb, ha32.trans ha21, fun hf => hv21 (hv32 hf)⟩

theorem sigRefines_destroy (st : JitCacheState) (bn : Int) (inval : Bool) :
    SigRefines (destroyBlock st bn inval) st := by
  intro n b2 hb2
  have h := destroyBlock_getElem_sig st bn inval n
  rw [hb2] at h
  split at h
  · cases hob : st.blocks[n]? with
    | none =>
        rw [hob] at h
        cases h
    | some b =>
        rw [hob] at h
        simp only [Option.map_some', Option.some.injEq, Prod.mk.injEq] at h
        refine ⟨b, rfl, h.1, fun hf => ?_⟩
        rw [h.2] at hf
        cases hf
  · cases hob : st.blocks[n]? with
    | none =>
        rw [hob] at h
        cases h
    | some b =>
        rw [hob] at h
        simp only [Option.map_some', Option.some.injEq, Prod.mk.injEq] at h
        exact ⟨b, rfl, h.1, fun hf => by rw [← h.2]; exact hf⟩

theorem sigRefines_foldl_destroy (l : List ((Nat × Nat) × Nat)) (st : JitCacheState) :
    SigRefines (l.foldl (fun acc x => destroyBlock acc (u32ToInt x.2) true) st) st := by
  induction l generalizing st with
  | nil => exact sigRefines_refl st
  | cons x xs ih =>
      rw [List.foldl_cons]
      exact sigRefines_trans (ih _) (sigRefines_destroy st _ _)

theorem sigRefines_invalidate (st : JitCacheState) (address length : Nat) ( forced : Bool) :
    SigRefines (invalidateICache st address length forced) st := by
  intro n b2 hb2
  rw [invalidateICache_blocks] at hb2
  split at hb2
  · have hr := sigRefines_foldl_destroy (invScanSeg st.block_map address length)
      (invFastPathState st address length) n b2 hb2
    obtain ⟨b, hb, ha, hv⟩ := hr
    rw [invFastPathState_blocks] at hb
    exact ⟨b, hb, ha, hv⟩
  · exact ⟨b2, hb2, rfl, fun h => h⟩

theorem setBlockPayload_sig (st : JitCacheState) (bn size : Nat) (ld : List LinkData) (n : Nat) :
    ((setBlockPayload st bn size ld).blocks[n]?).map (fun b => (b.originalAddress, b.invalid)) =
      (st.blocks[n]?).map fun b => (b.originalAddress, b.invalid) := by
  unfold setBlockPayload
  split
  · rfl
  · rename_i b hb
    dsimp only
    by_cases hn : n = bn
    · subst hn
      have hlt : n < st.blocks.length := (List.getElem?_eq_some_iff.mp hb).1
      simp [List.getElem?_set, hlt, hb]
    · show ((st.blocks.set bn _)[n]?).map _ = _
      rw [List.getElem?_set_ne fun hc => hn hc.symm]

theorem linkBlockExits_sig (st : JitCacheState) (i n : Nat) :
    ((linkBlockExits st i).blocks[n]?).map (fun b => (b.originalAddress, b.invalid)) =
      (st.blocks[n]?).map fun b => (b.originalAddress, b.invalid) := by
  unfold linkBlockExits
  split
  · rfl
  · rename_i b hb
    split
    · rfl
    · dsimp only
      by_cases hn : n = i
      · subst hn
        have hlt : n < st.blocks.length := (List.getElem?_eq_some_iff.mp hb).1
        simp [List.getElem?_set, hlt, hb]
      · show ((st.blocks.set i _)[n]?).map _ = _
        rw [List.getElem?_set_ne fun hc => hn hc.symm]

theorem linkBlock_sig (st : JitCacheState) (i n : Nat) :
    ((linkBlock st i).blocks[n]?).map (fun b => (b.originalAddress, b.invalid)) =
      (st.blocks[n]?).map fun b => (b.originalAddress, b.invalid) := by
  unfold linkBlock
  dsimp only
  split
  · exact linkBlockExits_sig st i n
  · rename_i b hb
    have hfold := foldl_proj_invariant
      (fun s => (s.blocks[n]?).map fun b => (b.originalAddress, b.invalid))
      linkBlockExits
      (fun st2 x => linkBlockExits_sig st2 x n)
      (((linkBlockExits st i).links_to.filter fun p => p.1 = b.originalAddress).map Prod.snd)
      (linkBlockExits st i)
    exact hfold.trans (linkBlockExits_sig st i n)

theorem physAllocPage_blocks (st : JitCacheState) (page : Nat) :
    (physAllocPage st page).blocks = st.blocks := by
  unfold physAllocPage
  split <;> rfl

theorem physWrite_blocks (st : JitCacheState) (page slot v : Nat) :
    (physWrite st page slot v).blocks = st.blocks := rfl

theorem finalizeBlock_sig (st : JitCacheState) (bn : Nat) (link : Bool) (n : Nat) :
    ((finalizeBlock st bn link).blocks[n]?).map (fun b => (b.originalAddress, b.invalid)) =
      (st.blocks[n]?).map fun b => (b.originalAddress, b.invalid) := by
  unfold finalizeBlock
  split
  · rfl
  · rename_i b hb
    dsimp only
    split
    · rw [linkBlockExits_sig, linkBlock_sig]
      dsimp only
      rw [physWrite_blocks, physAllocPage_blocks]
    · rw [physWrite_blocks, physAllocPage_blocks]

theorem clearCache_blocks (st : JitCacheState) : (clearCache st).blocks = [] := rfl

theorem uniqueValidStart_of_sigRefines {st2 st : JitCacheState}
    (hr : SigRefines st2 st) (hu : UniqueValidStart st) : UniqueValidStart st2 := by
  intro i j bi bj hbi hbj hvi hvj haddr
  obtain ⟨ci, hci, hai, hii⟩ := hr i bi hbi
  obtain ⟨cj, hcj, haj, hjj⟩ := hr j bj hbj
  exact hu i j ci cj hci hcj (hii hvi) (hjj hvj) (by rw [← hai, ← haj, haddr])

theorem getElem?_append_single {α : Type} (l : List α) (a : α) (n : Nat) :
    (l ++ [a])[n]? = if n < l.length then l[n]? else if n = l.length then some a else none := by
  rw [List.getElem?_append]
  by_cases h : n < l.length
  · rw [if_pos h, if_pos h]
  · rw [if_neg h, if_neg h]
    by_cases he : n = l.length
    · rw [if_pos he, he, Nat.sub_self]
      rfl
    · rw [if_neg he,
        List.getElem?_eq_none (by simp only [List.length_singleton]; omega)]

theorem uniqueValidStart_alloc {st : JitCacheState} {em : Nat}
    (hg : allocGuard st (.alloc em) = true)
    (hu : UniqueValidStart st) : UniqueValidStart (allocateBlock st em) := by
  have hall : ∀ b ∈ st.blocks, (b.invalid || decide (b.originalAddress ≠ em)) = true :=
    List.all_eq_true.mp hg
  intro i j bi bj hbi hbj hvi hvj haddr
  unfold allocateBlock at hbi hbj
  dsimp only at hbi hbj
  rw [getElem?_append_single] at hbi hbj
  by_cases hi : i < st.blocks.length <;> by_cases hj : j < st.blocks.length
  · rw [if_pos hi] at hbi
    rw [if_pos hj] at hbj
    exact hu i j bi bj hbi hbj hvi hvj haddr
  · rw [if_pos hi] at hbi
    rw [if_neg hj] at hbj
    by_cases hje : j = st.blocks.length
    · exfalso
      rw [if_pos hje] at hbj
      injection hbj with heq
      subst heq
      have hmem : bi ∈ st.blocks := by
        obtain ⟨hlt, hget⟩ := List.getElem?_eq_some_iff.mp hbi
        rw [← hget]
        exact List.getElem_mem hlt
      have hne := hall bi hmem
      rw [hvi] at hne
      simp only [Bool.false_or, decide_eq_true_eq] at hne
      exact hne haddr
    · rw [if_neg hje] at hbj
      cases hbj
  · rw [if_neg hi] at hbi
    rw [if_pos hj] at hbj
    by_cases hie : i = st.blocks.length
    · exfalso
      rw [if_pos hie] at hbi
      injection hbi with heq
      subst heq
      have hmem : bj ∈ st.blocks := by
        obtain ⟨hlt, hget⟩ := List.getElem?_eq_some_iff.mp hbj
        rw [← hget]
        exact List.getElem_mem hlt
      have hne := hall bj hmem
      rw [hvj] at hne
      simp only [Bool.false_or, decide_eq_true_eq] at hne
      exact hne haddr.symm
    · rw [if_neg hie] at hbi
      cases hbi
  · rw [if_neg hi] at hbi
    rw [if_neg hj] at hbj
    by_cases hie : i = st.blocks.length <;> by_cases hje : j = st.blocks.length
    · omega
    · rw [if_neg hje] at hbj
      cases hbj
    · rw [if_neg hie] at hbi
      cases hbi
    · rw [if_neg hie] at hbi
      cases hbi

/-- C8 counterexample: the claim quantifies over ALL operation sequences,
but two bare `AllocateBlock` calls at the same address leave two
non-invalid blocks with that start address. -/
theorem c8_unique_start_counterexample :
    ¬ UniqueValidStart (execOp (execOp emptyCache (.alloc 0x1000)) (.alloc 0x1000)) := by
  intro h
  have h01 := h 0 1
    { originalAddress := 0x1000, originalSize := 0, invalid := false, linkData := [] }
    { originalAddress := 0x1000, originalSize := 0, invalid := false, linkData := [] }
    rfl rfl rfl rfl rfl
  exact absurd h01 (by decide)

/-- C8 (amended): in every cache state reachable from the fresh cache by
operation sequences in which `AllocateBlock(em)` is only issued when no
non-invalid block already has start address `em` (the dispatcher's
compile-on-lookup-miss discipline), at most one block whose invalid flag is
false has any given guest start address. -/
theorem c8_unique_valid (st : JitCacheState) (h : GuardedReach st) : UniqueValidStart st := by
  induction h with
  | init =>
      intro i j bi bj hbi hbj _ _ _
      exact absurd hbi (by simp [emptyCache])
  | step st op hre hg ih =>
      cases op with
      | alloc em => exact uniqueValidStart_alloc hg ih
      | payload bn size ld =>
          exact uniqueValidStart_of_sigRefines
            (sigRefines_of_sig_eq fun n => setBlockPayload_sig st bn size ld n) ih
      | finalize bn link =>
          exact uniqueValidStart_of_sigRefines
            (sigRefines_of_sig_eq fun n => finalizeBlock_sig st bn link n) ih
      | destroy bn inval =>
          exact uniqueValidStart_of_sigRefines (sigRefines_destroy st bn inval) ih
      | invalidate a l f =>
          exact uniqueValidStart_of_sigRefines (sigRefines_invalidate st a l f) ih
      | clearOp =>
          intro i j bi bj hbi hbj _ _ _
          rw [show (execOp st .clearOp).blocks = [] from clearCache_blocks st] at hbi
          exact absurd hbi (by simp)

theorem c8_witness :
    UniqueValidStart (execOp (execOp emptyCache (.alloc 0x1000)) (.alloc 0x2000)) :=
  c8_unique_valid _
    (GuardedReach.step _ (.alloc 0x2000)
      (GuardedReach.step _ (.alloc 0x1000) GuardedReach.init (by decide)) (by decide))

/-! ## Claim C6: link on finalize, unlink on destroy -/

theorem physWrite_links_to (st : JitCacheState) (page slot v : Nat) :
    (physWrite st page slot v).links_to = st.links_to := rfl

theorem physAllocPage_links_to (st : JitCacheState) (page : Nat) :
    (physAllocPage st page).links_to = st.links_to := by
  unfold physAllocPage
  split <;> rfl

theorem physAllocPage_physPages_self (st : JitCacheState) (page : Nat) :
    (physAllocPage st page).physPages page = true := by
  unfold physAllocPage
  split
  · rename_i h
    exact h
  · dsimp only
    rw [if_pos rfl]

theorem allocateBlock_blocks (st : JitCacheState) (em : Nat) :
    (allocateBlock st em).blocks = st.blocks ++
      [{ originalAddress := em, originalSize := 0, invalid := false, linkData := [] }] := rfl

theorem updBlock_eq_of (st : JitCacheState) (bn : Nat) (b : JitBlock) (f : JitBlock → JitBlock)
    (hb : st.blocks[bn]? = some b) :
    updBlock st bn f = { st with blocks := st.blocks.set bn (f b) } := by
  unfold updBlock
  rw [hb]

theorem setBlockPayload_eq_of (st : JitCacheState) (bn size : Nat) (ld : List LinkData)
    (b : JitBlock) (hb : st.blocks[bn]? = some b) :
    setBlockPayload st bn size ld =
      { st with blocks := st.blocks.set bn { b with originalSize := size, linkData := ld } } := by
  unfold setBlockPayload
  rw [hb]

theorem linkBlockExits_eq_of (st : JitCacheState) (i : Nat) (b : JitBlock)
    (hb : st.blocks[i]? = some b) (hv : b.invalid = false) :
    linkBlockExits st i = { st with blocks := st.blocks.set i { b with
      linkData := b.linkData.map fun e =>
        if ¬ e.linkStatus ∧ getBlockNumberFromStartAddress st e.exitAddress ≠ -1 then
          { e with linkStatus := true }
        else e } } := by
  unfold linkBlockExits
  rw [hb]
  dsimp only
  rw [hv, if_neg Bool.false_ne_true]

theorem linkBlock_eq_of (st : JitCacheState) (i : Nat) (b : JitBlock)
    (hb : (linkBlockExits st i).blocks[i]? = some b) :
    linkBlock st i =
      (((linkBlockExits st i).links_to.filter fun p => p.1 = b.originalAddress).map
        Prod.snd).foldl linkBlockExits (linkBlockExits st i) := by
  unfold linkBlock
  dsimp only
  rw [hb]

theorem unlinkBlock_eq_of (st : JitCacheState) (i : Nat) (b : JitBlock)
    (hb : st.blocks[i]? = some b) :
    unlinkBlock st i =
      (let st1 :=
        ((st.links_to.filter fun p => p.1 = b.originalAddress).map Prod.snd).foldl
          (fun acc src =>
            updBlock acc src fun sb =>
              { sb with linkData := sb.linkData.map fun e =>
                  if e.exitAddress = b.originalAddress then { e with linkStatus := false }
                  else e })
          st
      { st1 with links_to := st1.links_to.filter fun p => p.1 ≠ b.originalAddress }) := by
  unfold unlinkBlock
  rw [hb]

theorem getBlockNumber_set_blocks (st : JitCacheState) (v : List JitBlock) (addr : Nat) :
    getBlockNumberFromStartAddress { st with blocks := v } addr =
      getBlockNumberFromStartAddress st addr := rfl

theorem getBlockNumber_set_links (st : JitCacheState) (v : List (Nat × Nat)) (addr : Nat) :
    getBlockNumberFromStartAddress { st with links_to := v } addr =
      getBlockNumberFromStartAddress st addr := rfl

/-- Page and slot of the paged start-address index together determine a
4-aligned guest address: the index drops only the low two (always-zero)
bits. -/
theorem pageslot_inj (a t : Nat) (ha4 : a % 4 = 0) (ht4 : t % 4 = 0)
    (hp : physPageOf t = physPageOf a) (hs : physSlotOf t = physSlotOf a) : t = a := by
  unfold physPageOf at hp
  unfold physSlotOf at hs
  rw [Nat.shiftRight_eq_div_pow, Nat.shiftRight_eq_div_pow] at hp
  rw [Nat.shiftRight_eq_div_pow, Nat.shiftRight_eq_div_pow] at hs
  rw [show (0xFFF : Nat) = 2 ^ 12 - 1 from rfl, Nat.and_pow_two_sub_one_eq_mod,
    Nat.and_pow_two_sub_one_eq_mod] at hs
  rw [show (2 : Nat) ^ 14 = 16384 from by norm_num] at hp
  rw [show (2 : Nat) ^ 2 = 4 from by norm_num,
    show (2 : Nat) ^ 12 = 4096 from by norm_num] at hs
  have hddt : t / 4 / 4096 = t / 16384 := by rw [Nat.div_div_eq_div_mul]
  have hdda : a / 4 / 4096 = a / 16384 := by rw [Nat.div_div_eq_div_mul]
  omega

/-- After `FinalizeBlock` stores a block number in the index, looking up
that block's start address returns the stored number. -/
theorem getBlockNumber_physWrite_same (st : JitCacheState) (addr v : Nat) :
    getBlockNumberFromStartAddress
      (physWrite (physAllocPage st (physPageOf addr)) (physPageOf addr) (physSlotOf addr) v)
      addr = u32ToInt v := by
  unfold getBlockNumberFromStartAddress
  unfold physWrite
  dsimp only
  rw [physAllocPage_physPages_self]
  rw [if_neg fun hc => hc rfl]
  rw [if_pos ⟨rfl, rfl⟩]

/-- Storing a block number for one 4-aligned address leaves the lookup of
every other 4-aligned address unchanged when it was a miss before. -/
theorem getBlockNumber_physWrite_other (st : JitCacheState) (a t v : Nat)
    (ha4 : a % 4 = 0) (ht4 : t % 4 = 0) (hne : t ≠ a)
    (hbase : getBlockNumberFromStartAddress st t = -1) :
    getBlockNumberFromStartAddress
      (physWrite (physAllocPage st (physPageOf a)) (physPageOf a) (physSlotOf a) v) t = -1 := by
  have hslot : ¬(physPageOf t = physPageOf a ∧ physSlotOf t = physSlotOf a) :=
    fun hc => hne (pageslot_inj a t ha4 ht4 hc.1 hc.2)
  unfold getBlockNumberFromStartAddress at hbase ⊢
  unfold physWrite physAllocPage
  dsimp only
  by_cases hp : st.physPages (physPageOf a) = true
  · rw [if_pos hp]
    rw [if_neg hslot]
    exact hbase
  · rw [if_neg hp]
    dsimp only
    by_cases hpg : physPageOf t = physPageOf a
    · rw [if_pos hpg, if_neg hslot, if_pos hpg]
      rw [if_neg fun hc => hc rfl]
      decide
    · simp only [if_neg hpg, if_neg hslot]
      exact hbase

/-- Finalizing (with linking) a single freshly compiled block whose one
exit targets a start address with no compiled block leaves the exit
unlinked and registers it in `links_to`. -/
theorem link_phase_first (st4 : JitCacheState) (a : JitBlock) (t : Nat)
    (hblocks : st4.blocks = [a]) (hlinks : st4.links_to = [(t, 0)])
    (hlook : getBlockNumberFromStartAddress st4 t = -1)
    (hav : a.invalid = false)
    (hal : a.linkData = [{ exitAddress := t, linkStatus := false }])
    (hat : t ≠ a.originalAddress) :
    linkBlockExits (linkBlock st4 0) 0 = { st4 with blocks := [a] } := by
  obtain ⟨aoa, aos, ainv, ald⟩ := a
  dsimp only at hav hal hat ⊢
  subst hav hal
  have h1 : linkBlockExits st4 0 =
      { st4 with blocks := [⟨aoa, aos, false, [⟨t, false⟩]⟩] } := by
    rw [linkBlockExits_eq_of st4 0 ⟨aoa, aos, false, [⟨t, false⟩]⟩ (by rw [hblocks]; rfl) rfl]
    rw [hblocks]
    simp only [List.map_cons, List.map_nil]
    rw [if_neg fun hc => hc.2 hlook]
    rfl
  have h2 : linkBlock st4 0 = { st4 with blocks := [⟨aoa, aos, false, [⟨t, false⟩]⟩] } := by
    rw [linkBlock_eq_of st4 0 ⟨aoa, aos, false, [⟨t, false⟩]⟩ (by rw [h1]; rfl)]
    rw [h1]
    dsimp only
    rw [hlinks]
    rw [show (([(t, 0)] : List (Nat × Nat)).filter fun p => p.1 = aoa) = [] from by
      simp [hat]]
    simp only [List.map_nil, List.foldl_nil]
  rw [h2]
  rw [linkBlockExits_eq_of { st4 with blocks := [⟨aoa, aos, false, [⟨t, false⟩]⟩] } 0
    ⟨aoa, aos, false, [⟨t, false⟩]⟩ rfl rfl]
  simp only [List.map_cons, List.map_nil]
  rw [if_neg fun hc => hc.2 ((getBlockNumber_set_blocks st4 _ t).trans hlook)]
  rfl

/-- Finalizing (with linking) a second block whose start address is the
first block's pending exit target patches the first block's exit. -/
theorem link_phase_second (st4 : JitCacheState) (a : JitBlock) (t bos : Nat)
    (hblocks : st4.blocks = [a,
      { originalAddress := t, originalSize := bos, invalid := false, linkData := [] }])
    (hlinks : st4.links_to = [(t, 0)])
    (hlook : getBlockNumberFromStartAddress st4 t = 1)
    (hav : a.invalid = false)
    (hal : a.linkData = [{ exitAddress := t, linkStatus := false }]) :
    linkBlockExits (linkBlock st4 1) 1 =
      { st4 with blocks :=
          [{ a with linkData := [{ exitAddress := t, linkStatus := true }] },
           { originalAddress := t, originalSize := bos, invalid := false, linkData := [] }] } := by
  obtain ⟨aoa, aos, ainv, ald⟩ := a
  dsimp only at hav hal ⊢
  subst hav hal
  have h1 : linkBlockExits st4 1 =
      { st4 with blocks := [⟨aoa, aos, false, [⟨t, false⟩]⟩, ⟨t, bos, false, []⟩] } := by
    rw [linkBlockExits_eq_of st4 1 ⟨t, bos, false, []⟩ (by rw [hblocks]; rfl) rfl]
    rw [hblocks]
    simp only [List.map_nil]
    rfl
  have h2 : linkBlock st4 1 =
      linkBlockExits
        { st4 with blocks := [⟨aoa, aos, false, [⟨t, false⟩]⟩, ⟨t, bos, false, []⟩] } 0 := by
    rw [linkBlock_eq_of st4 1 ⟨t, bos, false, []⟩ (by rw [h1]; rfl)]
    rw [h1]
    dsimp only
    rw [hlinks]
    rw [show (([(t, 0)] : List (Nat × Nat)).filter fun p => p.1 = t) = [(t, 0)] from by simp]
    simp only [List.map_cons, List.map_nil, List.foldl_cons, List.foldl_nil]
  have h3 : linkBlockExits
      { st4 with blocks := [⟨aoa, aos, false, [⟨t, false⟩]⟩, ⟨t, bos, false, []⟩] } 0 =
      { st4 with blocks := [⟨aoa, aos, false, [⟨t, true⟩]⟩, ⟨t, bos, false, []⟩] } := by
    rw [linkBlockExits_eq_of
      { st4 with blocks := [⟨aoa, aos, false, [⟨t, false⟩]⟩, ⟨t, bos, false, []⟩] } 0
      ⟨aoa, aos, false, [⟨t, false⟩]⟩ rfl rfl]
    simp only [List.map_cons, List.map_nil]
    rw [if_pos ⟨Bool.false_ne_true,
      by rw [(getBlockNumber_set_blocks st4 _ t).trans hlook]; decide⟩]
    rfl
  rw [h2, h3]
  rw [linkBlockExits_eq_of
    { st4 with blocks := [⟨aoa, aos, false, [⟨t, true⟩]⟩, ⟨t, bos, false, []⟩] } 1
    ⟨t, bos, false, []⟩ rfl rfl]
  simp only [List.map_nil]
  rfl

/-- Effect of `FinalizeBlock(1, link=true)` on a two-block cache where
block 0 has one pending exit targeting block 1's start address: block 0's
exit gets linked, `links_to` is unchanged (block 1 has no exits). -/
theorem finalize_second (st : JitCacheState) (a : JitBlock) (t bos : Nat)
    (hblocks : st.blocks = [a,
      { originalAddress := t, originalSize := bos, invalid := false, linkData := [] }])
    (hlinks : st.links_to = [(t, 0)])
    (hav : a.invalid = false)
    (hal : a.linkData = [{ exitAddress := t, linkStatus := false }]) :
    (finalizeBlock st 1 true).blocks =
        [{ a with linkData := [{ exitAddress := t, linkStatus := true }] },
         { originalAddress := t, originalSize := bos, invalid := false, linkData := [] }] ∧
    (finalizeBlock st 1 true).links_to = [(t, 0)] := by
  have hb1 : st.blocks[1]? = some
      { originalAddress := t, originalSize := bos, invalid := false, linkData := [] } := by
    rw [hblocks]
    rfl
  unfold finalizeBlock
  rw [hb1]
  dsimp only
  rw [if_pos rfl]
  rw [link_phase_second _ a t bos ?hb ?hl ?hlook hav hal]
  · constructor
    · rfl
    · dsimp only
      rw [physWrite_links_to, physAllocPage_links_to]
      dsimp only
      rw [hlinks]
      simp only [List.map_nil, List.append_nil]
  case hb =>
    dsimp only
    rw [physWrite_blocks, physAllocPage_blocks]
    exact hblocks
  case hl =>
    dsimp only
    rw [physWrite_links_to, physAllocPage_links_to]
    dsimp only
    rw [hlinks]
    simp only [List.map_nil, List.append_nil]
  case hlook =>
    exact (getBlockNumber_set_links _ _ t).trans
      ((getBlockNumber_physWrite_same _ t 1).trans (by decide))

/-- Effect of `FinalizeBlock(0, link=true)` on a one-block cache whose
block has one exit targeting an uncompiled 4-aligned address `t`: the exit
stays unlinked and is registered in `links_to`. -/
theorem finalize_first (st : JitCacheState) (a : JitBlock) (t : Nat)
    (hblocks : st.blocks = [a]) (hlinks : st.links_to = [])
    (hav : a.invalid = false)
    (hal : a.linkData = [{ exitAddress := t, linkStatus := false }])
    (ha4 : a.originalAddress % 4 = 0) (ht4 : t % 4 = 0) (hat : t ≠ a.originalAddress)
    (hbase : getBlockNumberFromStartAddress st t = -1) :
    (finalizeBlock st 0 true).blocks = [a] ∧
    (finalizeBlock st 0 true).links_to = [(t, 0)] := by
  have hb0 : st.blocks[0]? = some a := by
    rw [hblocks]
    rfl
  unfold finalizeBlock
  rw [hb0]
  dsimp only
  rw [if_pos rfl]
  rw [link_phase_first _ a t ?hb ?hl ?hlook hav hal hat]
  · constructor
    · rfl
    · dsimp only
      rw [physWrite_links_to, physAllocPage_links_to]
      dsimp only
      rw [hlinks, hal]
      simp only [List.map_cons, List.map_nil, List.nil_append]
  case hb =>
    dsimp only
    rw [physWrite_blocks, physAllocPage_blocks]
    exact hblocks
  case hl =>
    dsimp only
    rw [physWrite_links_to, physAllocPage_links_to]
    dsimp only
    rw [hlinks, hal]
    simp only [List.map_cons, List.map_nil, List.nil_append]
  case hlook =>
    exact (getBlockNumber_set_links _ _ t).trans
      (getBlockNumber_physWrite_other _ a.originalAddress t 0 ha4 ht4 hat hbase)

/-- Effect of `DestroyBlock(1, true)` on a two-block cache where block 0's
one exit (now linked) targets block 1's start address: block 1 is marked
invalid and block 0's exit is marked unlinked again. -/
theorem destroy_second_unlinks_first (st : JitCacheState) (a : JitBlock)
    (t bos : Nat) (bld : List LinkData)
    (hblocks : st.blocks = [a,
      { originalAddress := t, originalSize := bos, invalid := false, linkData := bld }])
    (hlinks : st.links_to = [(t, 0)])
    (hal : a.linkData = [{ exitAddress := t, linkStatus := true }]) :
    (destroyBlock st 1 true).blocks =
      [{ a with linkData := [{ exitAddress := t, linkStatus := false }] },
       { originalAddress := t, originalSize := bos, invalid := true, linkData := bld }] := by
  obtain ⟨aoa, aos, ainv, ald⟩ := a
  dsimp only at hal ⊢
  subst hal
  unfold destroyBlock
  rw [if_neg (by
    intro hc
    rw [hblocks] at hc
    simp only [List.length_cons, List.length_nil] at hc
    omega)]
  rw [show ((1 : Int)).toNat = 1 from rfl]
  rw [show st.blocks[1]? = some
      { originalAddress := t, originalSize := bos, invalid := false, linkData := bld } from by
    rw [hblocks]
    rfl]
  dsimp only
  rw [if_neg Bool.false_ne_true]
  have hST1 : updBlock st 1 (fun bb => { bb with invalid := true }) =
      { st with blocks := [⟨aoa, aos, ainv, [⟨t, true⟩]⟩, ⟨t, bos, true, bld⟩] } := by
    rw [updBlock_eq_of st 1 ⟨t, bos, false, bld⟩ _ (by rw [hblocks]; rfl)]
    rw [hblocks]
    rfl
  rw [hST1]
  have hST2 : (unlinkBlock
      { st with blocks := [⟨aoa, aos, ainv, [⟨t, true⟩]⟩, ⟨t, bos, true, bld⟩] } 1).blocks =
      [⟨aoa, aos, ainv, [⟨t, false⟩]⟩, ⟨t, bos, true, bld⟩] := by
    rw [unlinkBlock_eq_of
      { st with blocks := [⟨aoa, aos, ainv, [⟨t, true⟩]⟩, ⟨t, bos, true, bld⟩] } 1
      ⟨t, bos, true, bld⟩ rfl]
    dsimp only
    rw [hlinks]
    rw [show (([(t, 0)] : List (Nat × Nat)).filter fun p => p.1 = t) = [(t, 0)] from by simp]
    simp only [List.map_cons, List.map_nil, List.foldl_cons, List.foldl_nil]
    rw [updBlock_eq_of
      { st with blocks := [⟨aoa, aos, ainv, [⟨t, true⟩]⟩, ⟨t, bos, true, bld⟩],
                links_to := [(t, 0)] } 0
      ⟨aoa, aos, ainv, [⟨t, true⟩]⟩ _ rfl]
    dsimp only
    simp only [List.map_cons, List.map_nil]
    rw [if_pos trivial]
    rfl
  split
  · rw [physWrite_blocks]
    exact hST2
  · exact hST2

def c6A (aAddr t aSize : Nat) : JitBlock :=
  { originalAddress := aAddr, originalSize := aSize, invalid := false,
    linkData := [{ exitAddress := t, linkStatus := false }] }

def c6B (t bSize : Nat) : JitBlock :=
  { originalAddress := t, originalSize := bSize, invalid := false, linkData := [] }

/-- Block A of the claim's scenario: compiled at `aAddr`, one exit to `t`,
finalized with linking while no block exists at `t`. -/
def c6stA (aAddr t aSize : Nat) : JitCacheState :=
  finalizeBlock (setBlockPayload (allocateBlock emptyCache aAddr) 0 aSize
    [{ exitAddress := t, linkStatus := false }]) 0 true

/-- Then block B compiled at `t` and finalized with linking. -/
def c6stB (aAddr t aSize bSize : Nat) : JitCacheState :=
  finalizeBlock (setBlockPayload (allocateBlock (c6stA aAddr t aSize) t) 1 bSize []) 1 true

/-- Then `DestroyBlock(B)`. -/
def c6stC (aAddr t aSize bSize : Nat) : JitCacheState :=
  destroyBlock (c6stB aAddr t aSize bSize) 1 true

/-- C6: finalize block A (start `aAddr`, one exit targeting the uncompiled
address `t`), so A's exit stays unlinked; finalizing block B at start
address `t` with linking patches A's exit (`linkStatus` becomes true) as a
side effect; then `DestroyBlock` on B marks A's exit for target `t`
unlinked again.  Addresses are distinct and 4-aligned, as guest
instruction addresses are. -/
theorem c6_link_unlink (aAddr t aSize bSize : Nat)
    (ha4 : aAddr % 4 = 0) (ht4 : t % 4 = 0) (hne : t ≠ aAddr) :
    ((c6stA aAddr t aSize).blocks[0]?).map (fun b => b.linkData) =
        some [{ exitAddress := t, linkStatus := false }] ∧
    ((c6stB aAddr t aSize bSize).blocks[0]?).map (fun b => b.linkData) =
        some [{ exitAddress := t, linkStatus := true }] ∧
    ((c6stC aAddr t aSize bSize).blocks[0]?).map (fun b => b.linkData) =
        some [{ exitAddress := t, linkStatus := false }] := by
  have hA := finalize_first
    (setBlockPayload (allocateBlock emptyCache aAddr) 0 aSize
      [{ exitAddress := t, linkStatus := false }])
    (c6A aAddr t aSize) t rfl rfl rfl rfl ha4 ht4 hne rfl
  have hAb : (c6stA aAddr t aSize).blocks = [c6A aAddr t aSize] := hA.1
  have hAl : (c6stA aAddr t aSize).links_to = [(t, 0)] := hA.2
  have h5 : (allocateBlock (c6stA aAddr t aSize) t).blocks =
      [c6A aAddr t aSize,
       { originalAddress := t, originalSize := 0, invalid := false, linkData := [] }] := by
    rw [allocateBlock_blocks, hAb]
    rfl
  have h6 : setBlockPayload (allocateBlock (c6stA aAddr t aSize) t) 1 bSize [] =
      { allocateBlock (c6stA aAddr t aSize) t with
        blocks := [c6A aAddr t aSize, c6B t bSize] } := by
    rw [setBlockPayload_eq_of _ 1 bSize []
      { originalAddress := t, originalSize := 0, invalid := false, linkData := [] }
      (by rw [h5]; rfl)]
    rw [h5]
    rfl
  have hB := finalize_second
    { allocateBlock (c6stA aAddr t aSize) t with blocks := [c6A aAddr t aSize, c6B t bSize] }
    (c6A aAddr t aSize) t bSize rfl hAl rfl rfl
  have hBb : (c6stB aAddr t aSize bSize).blocks =
      [{ c6A aAddr t aSize with linkData := [{ exitAddress := t, linkStatus := true }] },
       c6B t bSize] := by
    unfold c6stB
    rw [h6]
    exact hB.1
  have hBl : (c6stB aAddr t aSize bSize).links_to = [(t, 0)] := by
    unfold c6stB
    rw [h6]
    exact hB.2
  have hC := destroy_second_unlinks_first (c6stB aAddr t aSize bSize)
    { c6A aAddr t aSize with linkData := [{ exitAddress := t, linkStatus := true }] }
    t bSize [] hBb hBl rfl
  refine ⟨?_, ?_, ?_⟩
  · rw [hAb]
    rfl
  · rw [hBb]
    rfl
  · unfold c6stC
    rw [hC]
    rfl

theorem c6_witness :
    ((c6stA 0x1000 0x2000 8).blocks[0]?).map (fun b => b.linkData) =
        some [{ exitAddress := 0x2000, linkStatus := false }] ∧
    ((c6stB 0x1000 0x2000 8 8).blocks[0]?).map (fun b => b.linkData) =
        some [{ exitAddress := 0x2000, linkStatus := true }] ∧
    ((c6stC 0x1000 0x2000 8 8).blocks[0]?).map (fun b => b.linkData) =
        some [{ exitAddress := 0x2000, linkStatus := false }] :=
  c6_link_unlink 0x1000 0x2000 8 8 (by decide) (by decide) (by decide)

end Dolphin
